import Mathlib

/-!
# Verification of the `IniParser` streaming INI parser

Shallow embedding of `src/src/IniParser.hpp` (class `IniParser`).  The
character-level state machine `IniParser::parse` is translated into a pure
Lean step function over an explicit parser-state record.  Machine integers
(`uint32_t` accumulator, `int32_t` destinations) are modelled as `Nat` with
explicit reduction modulo `2^32`, and as `Int` bit patterns where the source
reinterprets signedness.  The user-supplied mapping provider (a C++ callable
invoked through the type-erased `MappingProviderIf`) is modelled as a
state-passing Lean function: on the selection call (`parsed = false`) it
returns the net effect of the binding verbs it invoked on the `Context`
(`mapString` / `mapNumber` / `mapHexNumber`, which are the only writers of
the private `Context::st` and `Context::val` fields), and on the
verification call (`parsed = true`) only its Boolean result is used.
Buffers (`group`/`key` identifier buffers, the bound string destination) are
modelled as lists of bytes; a bound number destination is a `Nat` holding the
32-bit pattern.
-/

namespace IniP

/-- Mirror of `IniParser::ParserState` (the `PST_*` enumeration). -/
inductive PState where
  | start
  | group
  | key
  | assign
  | value
  | ignoreValue
  | strValue
  | u32Value
  | hexU32Value
  | blank
  | comment
  | i32Value
  | hexI32Value
  | error
deriving DecidableEq, Repr

/-- Which buffer `Context::val.str.ptr` points into: the group identifier
buffer, the key identifier buffer, or the user string destination bound via
`mapString`. -/
inductive StrDst where
  | group
  | key
  | user
deriving DecidableEq, Repr

/-- Mirror of `Context::StrVal`: the value-string cursor.  `ptrOff` is the offset of
`ptr` from the start of the buffer named by `dst`; `endOff` the offset of
`end`. -/
structure StrVal where
  dst : StrDst
  ptrOff : Nat
  endOff : Nat
deriving DecidableEq, Repr

/-- Mirror of `Context::NumVal` range bounds: `min`/`max` stored as 32-bit patterns
(the source holds them in a `u32`/`i32` union, i.e. as raw bits). -/
structure NumVal where
  minB : Nat
  maxB : Nat
deriving DecidableEq, Repr

/-- Mirror of `Context::Val`: the `str`/`num` union.  Each parser state reads only the
member that was last written; reading the inactive member (undefined in the
source) is modelled as a parse error below. -/
inductive Val where
  | vstr (v : StrVal)
  | vnum (n : NumVal)
deriving DecidableEq, Repr

/-- The complete mutable state of one `IniParser` (fields of the class and
of its `Context`), plus the model of the memory the parser writes through
pointers: the two identifier buffers, the bound string destination `sdest`
and the bound number destination `ndest` (32-bit pattern).  `m` is the
private state of the mapping-provider closure. -/
structure IniSt (M : Type) where
  st : PState
  groupBuf : List Nat
  keyBuf : List Nat
  sdest : List Nat
  ndest : Nat
  val : Val
  line : Nat
  idx : Nat
  strBlank : Nat
  num : Nat
  lastCh : Int
  numNeg : Bool
  quote : Int
  m : M
deriving DecidableEq, Repr

/-- Net effect of the binding verbs the mapping provider invoked on the
`Context` during the selection call: which `map*` helper was called last
(they are the only public writers of `Context::st` and `Context::val`), or
`keep` when no verb was invoked. -/
inductive BindChoice where
  | keep
  | str (cap : Nat)
  | u32 (minB maxB : Nat)
  | i32 (minB maxB : Nat)
  | hexU32 (minB maxB : Nat)
  | hexI32 (minB maxB : Nat)
deriving DecidableEq, Repr

/-- Model of the user mapping provider: given its own state, the `parsed`
flag and the current group/key buffers, it returns its Boolean result, the
binding it selected (ignored for `parsed = true`) and its new state. -/
def Mapper (M : Type) : Type :=
  M → Bool → List Nat → List Nat → Bool × BindChoice × M

/-- Construction parameters of one `IniParser`: `maxIdLen` and the mapping
provider. -/
structure Cfg (M : Type) where
  maxIdLen : Nat
  mapper : Mapper M

/-- The C `isalpha` for the "C" locale (ASCII letters). -/
def isalpha (c : Int) : Bool :=
  (65 ≤ c && c ≤ 90) || (97 ≤ c && c ≤ 122)

/-- The C `isdigit` (ASCII decimal digit). -/
def isdigit (c : Int) : Bool :=
  48 ≤ c && c ≤ 57

/-- The C `isalnum` (ASCII letter or decimal digit). -/
def isalnum (c : Int) : Bool :=
  isalpha c || isdigit c

/-- The C `isblank` (space or horizontal tab). -/
def isblank (c : Int) : Bool :=
  c = 32 || c = 9

/-- The C `isspace` for the "C" locale (space, `\t`, `\n`, `\v`, `\f`, `\r`). -/
def isspace (c : Int) : Bool :=
  c = 32 || (9 ≤ c && c ≤ 13)

/-- The C `isxdigit` (ASCII hexadecimal digit). -/
def isxdigit (c : Int) : Bool :=
  isdigit c || (65 ≤ c && c ≤ 70) || (97 ≤ c && c ≤ 102)

/-- Mirror of `IniParser::isValidIdChar`. -/
def isValidIdChar (c : Int) : Bool :=
  isalnum c || c = 95 || c = 46

/-- Mirror of `IniParser::isValidStrChar`. -/
def isValidStrChar (c : Int) : Bool :=
  c ≠ 127 && (c = 9 || c ≥ 32)

/-- The byte stored by `char(ch)` (value truncated to 8 bits). -/
def byteOf (c : Int) : Nat :=
  (c % 256).toNat

/-- A 32-bit pattern read as `int32_t` (two's complement). -/
def i32OfBits (b : Nat) : Int :=
  if b < 2147483648 then (b : Int) else (b : Int) - 4294967296

/-- An `int32_t` value stored back as its 32-bit pattern. -/
def bitsOfI32 (x : Int) : Nat :=
  (x % 4294967296).toNat

/-- Wrap-around of a signed 32-bit arithmetic result (two's complement). -/
def i32Wrap (x : Int) : Int :=
  ((x + 2147483648) % 4294967296) - 2147483648

/-- Write one byte through `Context::val.str.ptr` at offset `i` of the
buffer selected by `v.dst`. -/
def writeAt {M : Type} (s : IniSt M) (v : StrVal) (i : Nat) (c : Int) : IniSt M :=
  match v.dst with
  | .group => { s with groupBuf := s.groupBuf.set i (byteOf c) }
  | .key => { s with keyBuf := s.keyBuf.set i (byteOf c) }
  | .user => { s with sdest := s.sdest.set i (byteOf c) }

/-- The `onError` label: enter `PST_ERROR` and report failure. -/
def onError {M : Type} (s : IniSt M) : Bool × IniSt M :=
  (false, { s with st := .error })

/-- Mirror of `IniParser::trimString`: null-terminate the completely parsed value
string, dropping trailing blanks of an unquoted value. -/
def trimString {M : Type} (s : IniSt M) (v : StrVal) : IniSt M :=
  if s.quote = 0 ∧ s.strBlank ≠ 0 then
    writeAt s v (v.ptrOff + s.strBlank) 0
  else
    writeAt s v (v.ptrOff + s.idx) 0

/-- Effect on `Context` of applying the selected binding verb
(`Context::mapString` / `mapNumber` / `mapHexNumber`). -/
def applyChoice {M : Type} (c : BindChoice) (s : IniSt M) : IniSt M :=
  match c with
  | .keep => s
  | .str cap => { s with st := .strValue, val := .vstr ⟨.user, 0, cap⟩ }
  | .u32 a b => { s with st := .u32Value, val := .vnum ⟨a, b⟩ }
  | .i32 a b => { s with st := .i32Value, val := .vnum ⟨a, b⟩ }
  | .hexU32 a b => { s with st := .hexU32Value, val := .vnum ⟨a, b⟩ }
  | .hexI32 a b => { s with st := .hexI32Value, val := .vnum ⟨a, b⟩ }

/-- Invoke the mapping provider (`mappingProviderIf->invoker`). -/
def invokeMapper {M : Type} (cfg : Cfg M) (parsed : Bool) (s : IniSt M) :
    Bool × BindChoice × IniSt M :=
  let r := cfg.mapper s.m parsed s.groupBuf s.keyBuf
  (r.1, r.2.1, { s with m := r.2.2 })

/-- The `onCheckNumRange` label: range check and commit of a completed
number value, followed by the verification call of the mapping provider. -/
def checkNumRange {M : Type} (cfg : Cfg M) (s : IniSt M) : Bool × IniSt M :=
  match s.val with
  | .vnum n =>
    if s.numNeg then
      if s.num > 2147483648 then onError s
      else
        let numI32 : Int := i32Wrap (-(i32OfBits s.num))
        if i32OfBits n.minB ≤ numI32 ∧ numI32 ≤ i32OfBits n.maxB then
          let s1 := { s with ndest := bitsOfI32 numI32 }
          let r := invokeMapper cfg true s1
          if r.1 then (true, r.2.2) else onError r.2.2
        else onError s
    else
      if n.minB ≤ s.num ∧ s.num ≤ n.maxB then
        let s1 := { s with ndest := s.num }
        let r := invokeMapper cfg true s1
        if r.1 then (true, r.2.2) else onError r.2.2
      else onError s
  | .vstr _ => onError s

/-- Close of a `PST_U32_VALUE` / `PST_HEX_U32_VALUE` token: `idx == 0` is a
missing value, otherwise fall through to `onCheckNumRange`. -/
def closeNum {M : Type} (cfg : Cfg M) (s : IniSt M) : Bool × IniSt M :=
  if s.idx = 0 then onError s else checkNumRange cfg s

/-- Branch `case PST_START` of `IniParser::parse`. -/
def handleStart {M : Type} (cfg : Cfg M) (ch : Int) (s : IniSt M) : Bool × IniSt M :=
  if ch < 0 then (true, s)
  else if ch = 91 then
    (true, { s with st := .group, val := .vstr ⟨.group, 0, cfg.maxIdLen⟩ })
  else if isalpha ch then
    (true, { s with st := .key,
                    keyBuf := s.keyBuf.set 0 (byteOf ch),
                    val := .vstr ⟨.key, 1, cfg.maxIdLen⟩ })
  else if ch = 35 then (true, { s with st := .comment })
  else if !isspace ch then onError s
  else (true, s)

/-- Branch `case PST_GROUP` of `IniParser::parse`. -/
def handleGroup {M : Type} (ch : Int) (s : IniSt M) : Bool × IniSt M :=
  match s.val with
  | .vstr v =>
    if v.ptrOff ≥ v.endOff then onError s
    else if isValidIdChar ch then
      if v.dst = .group ∧ v.ptrOff = 0 ∧ ¬ isalpha ch then onError s
      else
        (true, { writeAt s v v.ptrOff ch with val := .vstr { v with ptrOff := v.ptrOff + 1 } })
    else if ch = 93 then
      (true, { writeAt s v v.ptrOff 0 with st := .start })
    else onError s
  | .vnum _ => onError s

/-- Branch `case PST_KEY` of `IniParser::parse`. -/
def handleKey {M : Type} (ch : Int) (s : IniSt M) : Bool × IniSt M :=
  match s.val with
  | .vstr v =>
    if v.ptrOff ≥ v.endOff then onError s
    else if isValidIdChar ch then
      (true, { writeAt s v v.ptrOff ch with val := .vstr { v with ptrOff := v.ptrOff + 1 } })
    else if isblank ch then
      (true, { writeAt s v v.ptrOff 0 with st := .assign })
    else if ch = 61 then (true, { s with st := .value })
    else onError s
  | .vnum _ => onError s

/-- Branch `case PST_ASSIGN` of `IniParser::parse`. -/
def handleAssign {M : Type} (ch : Int) (s : IniSt M) : Bool × IniSt M :=
  if ch = 61 then (true, { s with st := .value })
  else if !isblank ch then onError s
  else (true, s)

/-- Branch `case PST_IGNORE_VALUE` of `IniParser::parse`. -/
def handleIgnore {M : Type} (ch : Int) (eol : Bool) (s : IniSt M) : Bool × IniSt M :=
  if ch = 35 ∧ s.quote = 0 then (true, { s with st := .comment })
  else if ch = s.quote ∧ s.quote ≠ 0 then (true, { s with st := .blank })
  else if eol ∧ s.quote = 0 then (true, { s with st := .start })
  else if isValidStrChar ch then (true, s)
  else onError s

/-- Close of the current string value (the `newState != st` tail of
`case PST_STR_VALUE`): trim, verification call, switch to `ns`. -/
def closeStr {M : Type} (cfg : Cfg M) (ns : PState) (v : StrVal) (s : IniSt M) :
    Bool × IniSt M :=
  let s1 := trimString s v
  let r := invokeMapper cfg true s1
  if r.1 then (true, { r.2.2 with st := ns }) else onError r.2.2

/-- Branch `case PST_STR_VALUE` of `IniParser::parse`. -/
def handleStr {M : Type} (cfg : Cfg M) (ch : Int) (eol : Bool) (s : IniSt M) :
    Bool × IniSt M :=
  match s.val with
  | .vstr v =>
    if v.ptrOff + s.idx ≥ v.endOff then onError s
    else if ch = 35 ∧ s.quote = 0 then closeStr cfg .comment v s
    else if ch = s.quote ∧ s.quote ≠ 0 then closeStr cfg .blank v s
    else if eol ∧ s.quote = 0 then closeStr cfg .start v s
    else if isValidStrChar ch then
      let s1 := if isblank ch then
                  (if s.strBlank = 0 then { s with strBlank := s.idx } else s)
                else { s with strBlank := 0 }
      (true, { writeAt s1 v (v.ptrOff + s1.idx) ch with idx := s1.idx + 1 })
    else onError s
  | .vnum _ => onError s

/-- Branch `case PST_U32_VALUE` of `IniParser::parse`. -/
def handleU32 {M : Type} (cfg : Cfg M) (ch : Int) (eol : Bool) (s : IniSt M) :
    Bool × IniSt M :=
  if isdigit ch then
    let oldNum := s.num
    let n := (s.num * 10 + (ch - 48).toNat) % 4294967296
    let s1 := { s with idx := s.idx + 1, num := n }
    if oldNum > n then onError s1 else (true, s1)
  else if eol then closeNum cfg { s with st := .start }
  else if s.idx = 1 ∧ s.num = 0 ∧ ch = 120 then closeNum cfg { s with st := .hexU32Value }
  else if ch = 35 then closeNum cfg { s with st := .comment }
  else if isspace ch then closeNum cfg { s with st := .blank }
  else onError s

/-- Branch `case PST_HEX_U32_VALUE` of `IniParser::parse`. -/
def handleHexU32 {M : Type} (cfg : Cfg M) (ch : Int) (eol : Bool) (s : IniSt M) :
    Bool × IniSt M :=
  if isxdigit ch then
    let oldNum := s.num
    let d : Nat := if ch ≤ 57 then (ch - 48).toNat
                   else if ch ≤ 70 then (ch - 65 + 10).toNat
                   else (ch - 97 + 10).toNat
    let n := (s.num * 16 + d) % 4294967296
    let s1 := { s with idx := s.idx + 1, num := n }
    if oldNum > n then onError s1 else (true, s1)
  else if eol then closeNum cfg { s with st := .start }
  else if ch = 35 then closeNum cfg { s with st := .comment }
  else if isspace ch then closeNum cfg { s with st := .blank }
  else onError s

/-- Branch `case PST_BLANK` of `IniParser::parse`. -/
def handleBlank {M : Type} (ch : Int) (eol : Bool) (s : IniSt M) : Bool × IniSt M :=
  if ch = 35 then (true, { s with st := .comment })
  else if eol then (true, { s with st := .start })
  else if !isblank ch then onError s
  else (true, s)

/-- Branch `case PST_COMMENT` of `IniParser::parse`. -/
def handleComment {M : Type} (_ch : Int) (eol : Bool) (s : IniSt M) : Bool × IniSt M :=
  if eol then (true, { s with st := .start }) else (true, s)

/-- Branch `case PST_VALUE` of `IniParser::parse`: selection call of the mapping
provider and dispatch on the chosen binding.  The `goto onReevaluation`
jumps of the source become direct calls of the target state's handler
(each value byte is re-dispatched at most once). -/
def handleValue {M : Type} (cfg : Cfg M) (ch : Int) (eol : Bool) (s : IniSt M) :
    Bool × IniSt M :=
  if isblank ch then (true, s)
  else if isValidStrChar ch || eol then
    let s0 := { s with st := .ignoreValue }
    let r := invokeMapper cfg false s0
    if !r.1 then onError r.2.2
    else
      let s1 := applyChoice r.2.1 r.2.2
      match s1.st with
      | .strValue =>
        let s2 := { s1 with idx := 0, strBlank := 0 }
        if ch = 34 ∨ ch = 39 then (true, { s2 with quote := ch })
        else handleStr cfg ch eol { s2 with quote := 0 }
      | .u32Value =>
        handleU32 cfg ch eol { s1 with idx := 0, num := 0, numNeg := false }
      | .hexU32Value =>
        handleHexU32 cfg ch eol { s1 with idx := 0, num := 0, numNeg := false }
      | .i32Value | .hexI32Value =>
        let s2 := { s1 with idx := 0, num := 0, numNeg := ch = 45 }
        let target : PState := if s1.st = .i32Value then .u32Value else .hexU32Value
        if ¬ s2.numNeg then
          match s2.val with
          | .vnum n =>
            let n1 := if i32OfBits n.minB < 0 then { n with minB := 0 } else n
            let s3 := { s2 with val := .vnum n1 }
            if i32OfBits n1.maxB < 0 then onError s3
            else if target = .u32Value then handleU32 cfg ch eol { s3 with st := .u32Value }
            else handleHexU32 cfg ch eol { s3 with st := .hexU32Value }
          | .vstr _ => onError s2
        else (true, { s2 with st := target })
      | .ignoreValue =>
        let s2 := if ch = 34 ∨ ch = 39 then { s1 with quote := ch } else { s1 with quote := 0 }
        if eol then handleIgnore ch eol s2 else (true, s2)
      | _ => onError s1
  else onError s

/-- Is `ch` an end-of-line-or-input character (`isEndOfLineOrInput`)? -/
def eolOf (ch : Int) : Bool :=
  ch < 0 || ch = 13 || ch = 10

/-- The `addLine` amount of `IniParser::parse`: a CR bumps the line, an LF
bumps it only when the previous character was not CR. -/
def addLineOf (ch last : Int) : Nat :=
  if ch < 0 then 0
  else if ch = 13 then 1
  else if ch = 10 ∧ last ≠ 13 then 1
  else 0

/-- The state switch of `IniParser::parse` (with `lastCh` already updated).
The default case covers `PST_I32_VALUE`, `PST_HEX_I32_VALUE` and
`PST_ERROR`, which all jump to `onError`. -/
def dispatch {M : Type} (cfg : Cfg M) (ch : Int) (eol : Bool) (s : IniSt M) :
    Bool × IniSt M :=
  match s.st with
  | .start => handleStart cfg ch s
  | .group => handleGroup ch s
  | .key => handleKey ch s
  | .assign => handleAssign ch s
  | .value => handleValue cfg ch eol s
  | .ignoreValue => handleIgnore ch eol s
  | .strValue => handleStr cfg ch eol s
  | .u32Value => handleU32 cfg ch eol s
  | .hexU32Value => handleHexU32 cfg ch eol s
  | .blank => handleBlank ch eol s
  | .comment => handleComment ch eol s
  | _ => onError s

/-- The success epilogue of `IniParser::parse`: every `return true` path
adds `addLine` to the line counter, every `onError` path does not. -/
def wrapLine {M : Type} (n : Nat) (r : Bool × IniSt M) : Bool × IniSt M :=
  (r.1, if r.1 then { r.2 with line := r.2.line + n } else r.2)

/-- Mirror of `IniParser::parse`: one input character (or `-1` for end of data). -/
def parse {M : Type} (cfg : Cfg M) (ch : Int) (s : IniSt M) : Bool × IniSt M :=
  wrapLine (addLineOf ch s.lastCh) (dispatch cfg ch (eolOf ch) { s with lastCh := ch })

/-- The freshly constructed parser state (`IniParser::IniParser`): zeroed
identifier buffers, `line = 1`, `lastCh = -1`, `quote = 0`.  `sdest0` and
`ndest0` are the initial contents of the user destination variables; the
fields the constructor leaves uninitialized (`idx`, `strBlank`, `num`,
`numNeg`, `val`) are always written before being read and start at fixed
defaults here. -/
def initState {M : Type} (maxIdLen : Nat) (sdest0 : List Nat) (ndest0 : Nat) (m0 : M) :
    IniSt M :=
  { st := .start
    groupBuf := List.replicate maxIdLen 0
    keyBuf := List.replicate maxIdLen 0
    sdest := sdest0
    ndest := ndest0
    val := .vstr ⟨.group, 0, 0⟩
    line := 1
    idx := 0
    strBlank := 0
    num := 0
    lastCh := -1
    numNeg := false
    quote := 0
    m := m0 }

/-- Feed a whole character sequence, stopping at the first failure (as every
driver in the source does). -/
def feedAll {M : Type} (cfg : Cfg M) : List Int → IniSt M → Bool × IniSt M
  | [], s => (true, s)
  | c :: cs, s =>
    let r := parse cfg c s
    if r.1 then feedAll cfg cs r.2 else (false, r.2)

/-- The loop of the length-bounded `IniParser::parseString(str, len, ...)`
(and of `iniParseString<MaxId>(str, len, ...)`, whose loop is identical):
`remaining` is `len - i`; a NUL byte or the exhausted length injects the end
of input.  Reading past the supplied byte list yields NUL. -/
def parseStringLoop {M : Type} (cfg : Cfg M) :
    Nat → List Nat → IniSt M → Nat
  | remaining, str, s =>
    if str.headD 0 = 0 then
      let r := parse cfg (-1) s
      if r.1 then 0 else r.2.line
    else
      match remaining with
      | 0 =>
        let r := parse cfg (-1) s
        if r.1 then 0 else r.2.line
      | rem + 1 =>
        let r := parse cfg ((str.headD 0 : Nat) : Int) s
        if r.1 then parseStringLoop cfg rem str.tail r.2 else r.2.line

/-- Mirror of `IniParser::parseString(str, len, mappingFn, maxId)`: construct a parser
and run the length-bounded loop. -/
def parseString {M : Type} (cfg : Cfg M) (str : List Nat) (len : Nat)
    (sdest0 : List Nat) (ndest0 : Nat) (m0 : M) : Nat :=
  parseStringLoop cfg len str (initState cfg.maxIdLen sdest0 ndest0 m0)

/-- Feed a byte list followed by the end-of-input sentinel and return 0 on
success or the line of the first failure (the contract every convenience
entry point exposes). -/
def runBytes {M : Type} (cfg : Cfg M) (bs : List Nat) (s : IniSt M) : Nat :=
  let r := feedAll cfg (bs.map (fun b => (b : Int)) ++ [-1]) s
  if r.1 then 0 else r.2.line

/-- Read a buffer the way `StringHelper` does: the bytes up to the first
null terminator. -/
def cstr (l : List Nat) : List Nat :=
  l.takeWhile (fun b => b ≠ 0)

/-- The number of line terminators in an input sequence, counted the way
`IniParser::parse` counts them: a CR counts, an LF counts only when the
previous character was not CR (`prev` is the character before the list,
`-1` at the start of input). -/
def lineTerms (prev : Int) : List Int → Nat
  | [] => 0
  | c :: cs => (if c = 13 ∨ (c = 10 ∧ prev ≠ 13) then 1 else 0) + lineTerms c cs

/-- Modelled from the spec: `ident := LETTER (LETTER | DIGIT | '_' | '.')*`
(a non-empty identifier that begins with an ASCII letter). -/
def isIdent : List Int → Bool
  | [] => false
  | c :: cs => isalpha c && cs.all isValidIdChar

/-- Drop the trailing blanks (spaces and horizontal tabs) of a value. -/
def dropTrailingBlanksI (v : List Int) : List Int :=
  (v.reverse.dropWhile (fun c => isblank c)).reverse

/-- The content a string value of quote state `q` is specified to store:
the bytes between the delimiters, with trailing blanks removed exactly when
the value was unquoted. -/
def trimVal (q : Int) (v : List Int) : List Int :=
  if q = 0 then dropTrailingBlanksI v else v

/-- The evolution of the `strBlank` field over the bytes of a string value:
starting from value `b` at write offset `i`, each blank byte latches the
offset of the first blank of a run, each other byte resets it to 0. -/
def blankAcc : Nat → Nat → List Int → Nat
  | b, _, [] => b
  | b, i, c :: cs => blankAcc (if isblank c then (if b = 0 then i else b) else 0) (i + 1) cs

/-- Sequential byte writes of a value string into the destination buffer,
starting at offset `i`. -/
def writeSeq (buf : List Nat) (i : Nat) : List Int → List Nat
  | [] => buf
  | c :: cs => writeSeq (buf.set i (byteOf c)) (i + 1) cs

/-- A mapping provider that accepts every record, always selects the same
binding and counts its invocations in its state. -/
def constMapper (c : BindChoice) : Mapper Nat :=
  fun m _parsed _g _k => (true, c, m + 1)

/-- A mapping provider that binds every value to an unsigned number with
the full range and logs the key it observes at each selection call. -/
def logMapper : Mapper (List (List Nat)) :=
  fun log parsed _g k =>
    (true, .u32 0 4294967295, if parsed then log else log ++ [cstr k])

/-- The bytes of `k=4772185890` (a decimal value whose mathematical value
4772185890 exceeds `2^32 - 1`). -/
def iniOverflow : List Nat :=
  [107, 61, 52, 55, 55, 50, 49, 56, 53, 56, 57, 48]

/-- The bytes of `k=0x1F` (a `0x`-prefixed value under a decimal unsigned
binding). -/
def iniHexPrefixed : List Nat :=
  [107, 61, 48, 120, 49, 70]

/-- The bytes of `[A]`, newline, `KEYLONG = 1`, newline, `AB=2`, newline:
a record whose key is terminated directly by `=` after a record with a
longer key. -/
def iniStaleKey : List Nat :=
  [91, 65, 93, 10,
   75, 69, 89, 76, 79, 78, 71, 32, 61, 32, 49, 10,
   65, 66, 61, 50, 10]

/-! ## Basic facts about the step function -/

variable {M : Type}

@[simp]
lemma writeAt_line (s : IniSt M) (v : StrVal) (i : Nat) (c : Int) :
    (writeAt s v i c).line = s.line := by
  unfold writeAt; split <;> rfl

@[simp]
lemma writeAt_lastCh (s : IniSt M) (v : StrVal) (i : Nat) (c : Int) :
    (writeAt s v i c).lastCh = s.lastCh := by
  unfold writeAt; split <;> rfl

@[simp]
lemma writeAt_st (s : IniSt M) (v : StrVal) (i : Nat) (c : Int) :
    (writeAt s v i c).st = s.st := by
  unfold writeAt; split <;> rfl

@[simp]
lemma trimString_line (s : IniSt M) (v : StrVal) :
    (trimString s v).line = s.line := by
  unfold trimString; split <;> simp

@[simp]
lemma trimString_lastCh (s : IniSt M) (v : StrVal) :
    (trimString s v).lastCh = s.lastCh := by
  unfold trimString; split <;> simp

@[simp]
lemma applyChoice_line (c : BindChoice) (s : IniSt M) :
    (applyChoice c s).line = s.line := by
  cases c <;> rfl

@[simp]
lemma applyChoice_lastCh (c : BindChoice) (s : IniSt M) :
    (applyChoice c s).lastCh = s.lastCh := by
  cases c <;> rfl

@[simp]
lemma invokeMapper_line (cfg : Cfg M) (p : Bool) (s : IniSt M) :
    (invokeMapper cfg p s).2.2.line = s.line := rfl

@[simp]
lemma invokeMapper_lastCh (cfg : Cfg M) (p : Bool) (s : IniSt M) :
    (invokeMapper cfg p s).2.2.lastCh = s.lastCh := rfl

@[simp]
lemma onError_fst (s : IniSt M) : (onError s).1 = false := rfl

@[simp]
lemma onError_st (s : IniSt M) : (onError s).2.st = .error := rfl

@[simp]
lemma onError_line (s : IniSt M) : (onError s).2.line = s.line := rfl

@[simp]
lemma onError_lastCh (s : IniSt M) : (onError s).2.lastCh = s.lastCh := rfl

lemma handleStart_err (cfg : Cfg M) (ch : Int) (s : IniSt M) :
    (handleStart cfg ch s).1 = false → (handleStart cfg ch s).2.st = .error := by
  unfold handleStart
  repeat' split
  all_goals simp [onError]

lemma handleStart_line (cfg : Cfg M) (ch : Int) (s : IniSt M) :
    (handleStart cfg ch s).2.line = s.line := by
  unfold handleStart
  repeat' split
  all_goals simp [onError]

lemma handleStart_lastCh (cfg : Cfg M) (ch : Int) (s : IniSt M) :
    (handleStart cfg ch s).2.lastCh = s.lastCh := by
  unfold handleStart
  repeat' split
  all_goals simp [onError]

lemma handleGroup_err (ch : Int) (s : IniSt M) :
    (handleGroup ch s).1 = false → (handleGroup ch s).2.st = .error := by
  unfold handleGroup
  repeat' split
  all_goals simp [onError]

lemma handleGroup_line (ch : Int) (s : IniSt M) :
    (handleGroup ch s).2.line = s.line := by
  unfold handleGroup
  repeat' split
  all_goals simp [onError]

lemma handleGroup_lastCh (ch : Int) (s : IniSt M) :
    (handleGroup ch s).2.lastCh = s.lastCh := by
  unfold handleGroup
  repeat' split
  all_goals simp [onError]

lemma handleKey_err (ch : Int) (s : IniSt M) :
    (handleKey ch s).1 = false → (handleKey ch s).2.st = .error := by
  unfold handleKey
  repeat' split
  all_goals simp [onError]

lemma handleKey_line (ch : Int) (s : IniSt M) :
    (handleKey ch s).2.line = s.line := by
  unfold handleKey
  repeat' split
  all_goals simp [onError]

lemma handleKey_lastCh (ch : Int) (s : IniSt M) :
    (handleKey ch s).2.lastCh = s.lastCh := by
  unfold handleKey
  repeat' split
  all_goals simp [onError]

lemma handleAssign_err (ch : Int) (s : IniSt M) :
    (handleAssign ch s).1 = false → (handleAssign ch s).2.st = .error := by
  unfold handleAssign
  repeat' split
  all_goals simp [onError]

lemma handleAssign_line (ch : Int) (s : IniSt M) :
    (handleAssign ch s).2.line = s.line := by
  unfold handleAssign
  repeat' split
  all_goals simp [onError]

lemma handleAssign_lastCh (ch : Int) (s : IniSt M) :
    (handleAssign ch s).2.lastCh = s.lastCh := by
  unfold handleAssign
  repeat' split
  all_goals simp [onError]

lemma handleIgnore_err (ch : Int) (eol : Bool) (s : IniSt M) :
    (handleIgnore ch eol s).1 = false → (handleIgnore ch eol s).2.st = .error := by
  unfold handleIgnore
  repeat' split
  all_goals simp [onError]

lemma handleIgnore_line (ch : Int) (eol : Bool) (s : IniSt M) :
    (handleIgnore ch eol s).2.line = s.line := by
  unfold handleIgnore
  repeat' split
  all_goals simp [onError]

lemma handleIgnore_lastCh (ch : Int) (eol : Bool) (s : IniSt M) :
    (handleIgnore ch eol s).2.lastCh = s.lastCh := by
  unfold handleIgnore
  repeat' split
  all_goals simp [onError]

lemma handleBlank_err (ch : Int) (eol : Bool) (s : IniSt M) :
    (handleBlank ch eol s).1 = false → (handleBlank ch eol s).2.st = .error := by
  unfold handleBlank
  repeat' split
  all_goals simp [onError]

lemma handleBlank_line (ch : Int) (eol : Bool) (s : IniSt M) :
    (handleBlank ch eol s).2.line = s.line := by
  unfold handleBlank
  repeat' split
  all_goals simp [onError]

lemma handleBlank_lastCh (ch : Int) (eol : Bool) (s : IniSt M) :
    (handleBlank ch eol s).2.lastCh = s.lastCh := by
  unfold handleBlank
  repeat' split
  all_goals simp [onError]

lemma handleComment_err (ch : Int) (eol : Bool) (s : IniSt M) :
    (handleComment ch eol s).1 = false → (handleComment ch eol s).2.st = .error := by
  unfold handleComment
  repeat' split
  all_goals simp [onError]

lemma handleComment_line (ch : Int) (eol : Bool) (s : IniSt M) :
    (handleComment ch eol s).2.line = s.line := by
  unfold handleComment
  repeat' split
  all_goals simp [onError]

lemma handleComment_lastCh (ch : Int) (eol : Bool) (s : IniSt M) :
    (handleComment ch eol s).2.lastCh = s.lastCh := by
  unfold handleComment
  repeat' split
  all_goals simp [onError]

lemma closeStr_err (cfg : Cfg M) (ns : PState) (v : StrVal) (s : IniSt M) :
    (closeStr cfg ns v s).1 = false → (closeStr cfg ns v s).2.st = .error := by
  simp only [closeStr]
  repeat' split
  all_goals simp [onError]

lemma closeStr_line (cfg : Cfg M) (ns : PState) (v : StrVal) (s : IniSt M) :
    (closeStr cfg ns v s).2.line = s.line := by
  simp only [closeStr]
  repeat' split
  all_goals simp [onError]

lemma closeStr_lastCh (cfg : Cfg M) (ns : PState) (v : StrVal) (s : IniSt M) :
    (closeStr cfg ns v s).2.lastCh = s.lastCh := by
  simp only [closeStr]
  repeat' split
  all_goals simp [onError]

lemma checkNumRange_err (cfg : Cfg M) (s : IniSt M) :
    (checkNumRange cfg s).1 = false → (checkNumRange cfg s).2.st = .error := by
  simp only [checkNumRange]
  repeat' split
  all_goals simp [onError, invokeMapper]

lemma checkNumRange_line (cfg : Cfg M) (s : IniSt M) :
    (checkNumRange cfg s).2.line = s.line := by
  simp only [checkNumRange]
  repeat' split
  all_goals simp [onError, invokeMapper]

lemma checkNumRange_lastCh (cfg : Cfg M) (s : IniSt M) :
    (checkNumRange cfg s).2.lastCh = s.lastCh := by
  simp only [checkNumRange]
  repeat' split
  all_goals simp [onError, invokeMapper]

lemma closeNum_err (cfg : Cfg M) (s : IniSt M) :
    (closeNum cfg s).1 = false → (closeNum cfg s).2.st = .error := by
  unfold closeNum
  split
  · simp [onError]
  · exact checkNumRange_err cfg s

lemma closeNum_line (cfg : Cfg M) (s : IniSt M) :
    (closeNum cfg s).2.line = s.line := by
  unfold closeNum
  split
  · simp [onError]
  · exact checkNumRange_line cfg s

lemma closeNum_lastCh (cfg : Cfg M) (s : IniSt M) :
    (closeNum cfg s).2.lastCh = s.lastCh := by
  unfold closeNum
  split
  · simp [onError]
  · exact checkNumRange_lastCh cfg s

lemma handleStr_err (cfg : Cfg M) (ch : Int) (eol : Bool) (s : IniSt M) :
    (handleStr cfg ch eol s).1 = false → (handleStr cfg ch eol s).2.st = .error := by
  simp only [handleStr]
  repeat' split
  all_goals first
    | exact closeStr_err _ _ _ _
    | (repeat' split
       all_goals simp [onError])

lemma handleStr_line (cfg : Cfg M) (ch : Int) (eol : Bool) (s : IniSt M) :
    (handleStr cfg ch eol s).2.line = s.line := by
  simp only [handleStr]
  repeat' split
  all_goals first
    | exact closeStr_line _ _ _ _
    | (repeat' split
       all_goals simp [onError])

lemma handleStr_lastCh (cfg : Cfg M) (ch : Int) (eol : Bool) (s : IniSt M) :
    (handleStr cfg ch eol s).2.lastCh = s.lastCh := by
  simp only [handleStr]
  repeat' split
  all_goals first
    | exact closeStr_lastCh _ _ _ _
    | (repeat' split
       all_goals simp [onError])

lemma handleU32_err (cfg : Cfg M) (ch : Int) (eol : Bool) (s : IniSt M) :
    (handleU32 cfg ch eol s).1 = false → (handleU32 cfg ch eol s).2.st = .error := by
  simp only [handleU32]
  repeat' split
  all_goals first
    | exact closeNum_err _ _
    | simp [onError]

lemma handleU32_line (cfg : Cfg M) (ch : Int) (eol : Bool) (s : IniSt M) :
    (handleU32 cfg ch eol s).2.line = s.line := by
  simp only [handleU32]
  repeat' split
  all_goals first
    | exact closeNum_line _ _
    | simp [onError]

lemma handleU32_lastCh (cfg : Cfg M) (ch : Int) (eol : Bool) (s : IniSt M) :
    (handleU32 cfg ch eol s).2.lastCh = s.lastCh := by
  simp only [handleU32]
  repeat' split
  all_goals first
    | exact closeNum_lastCh _ _
    | simp [onError]

lemma handleHexU32_err (cfg : Cfg M) (ch : Int) (eol : Bool) (s : IniSt M) :
    (handleHexU32 cfg ch eol s).1 = false → (handleHexU32 cfg ch eol s).2.st = .error := by
  simp only [handleHexU32]
  repeat' split
  all_goals first
    | exact closeNum_err _ _
    | simp [onError]

lemma handleHexU32_line (cfg : Cfg M) (ch : Int) (eol : Bool) (s : IniSt M) :
    (handleHexU32 cfg ch eol s).2.line = s.line := by
  simp only [handleHexU32]
  repeat' split
  all_goals first
    | exact closeNum_line _ _
    | simp [onError]

lemma handleHexU32_lastCh (cfg : Cfg M) (ch : Int) (eol : Bool) (s : IniSt M) :
    (handleHexU32 cfg ch eol s).2.lastCh = s.lastCh := by
  simp only [handleHexU32]
  repeat' split
  all_goals first
    | exact closeNum_lastCh _ _
    | simp [onError]

lemma handleValue_err (cfg : Cfg M) (ch : Int) (eol : Bool) (s : IniSt M) :
    (handleValue cfg ch eol s).1 = false → (handleValue cfg ch eol s).2.st = .error := by
  simp only [handleValue]
  repeat' split
  all_goals first
    | exact handleStr_err _ _ _ _
    | exact handleU32_err _ _ _ _
    | exact handleHexU32_err _ _ _ _
    | exact handleIgnore_err _ _ _
    | simp [onError]

lemma handleValue_line (cfg : Cfg M) (ch : Int) (eol : Bool) (s : IniSt M) :
    (handleValue cfg ch eol s).2.line = s.line := by
  simp only [handleValue]
  repeat' split
  all_goals first
    | (rw [handleStr_line]; simp)
    | (rw [handleU32_line]; simp)
    | (rw [handleHexU32_line]; simp)
    | (rw [handleIgnore_line]; simp)
    | simp [onError]

lemma handleValue_lastCh (cfg : Cfg M) (ch : Int) (eol : Bool) (s : IniSt M) :
    (handleValue cfg ch eol s).2.lastCh = s.lastCh := by
  simp only [handleValue]
  repeat' split
  all_goals first
    | (rw [handleStr_lastCh]; simp)
    | (rw [handleU32_lastCh]; simp)
    | (rw [handleHexU32_lastCh]; simp)
    | (rw [handleIgnore_lastCh]; simp)
    | simp [onError]

lemma dispatch_err (cfg : Cfg M) (ch : Int) (eol : Bool) (s : IniSt M) :
    (dispatch cfg ch eol s).1 = false → (dispatch cfg ch eol s).2.st = .error := by
  unfold dispatch
  cases s.st
  case start => exact handleStart_err _ _ _
  case group => exact handleGroup_err _ _
  case key => exact handleKey_err _ _
  case assign => exact handleAssign_err _ _
  case value => exact handleValue_err _ _ _ _
  case ignoreValue => exact handleIgnore_err _ _ _
  case strValue => exact handleStr_err _ _ _ _
  case u32Value => exact handleU32_err _ _ _ _
  case hexU32Value => exact handleHexU32_err _ _ _ _
  case blank => exact handleBlank_err _ _ _
  case comment => exact handleComment_err _ _ _
  all_goals simp [onError]

lemma dispatch_line (cfg : Cfg M) (ch : Int) (eol : Bool) (s : IniSt M) :
    (dispatch cfg ch eol s).2.line = s.line := by
  unfold dispatch
  cases s.st
  case start => exact handleStart_line _ _ _
  case group => exact handleGroup_line _ _
  case key => exact handleKey_line _ _
  case assign => exact handleAssign_line _ _
  case value => exact handleValue_line _ _ _ _
  case ignoreValue => exact handleIgnore_line _ _ _
  case strValue => exact handleStr_line _ _ _ _
  case u32Value => exact handleU32_line _ _ _ _
  case hexU32Value => exact handleHexU32_line _ _ _ _
  case blank => exact handleBlank_line _ _ _
  case comment => exact handleComment_line _ _ _
  all_goals simp [onError]

lemma dispatch_lastCh (cfg : Cfg M) (ch : Int) (eol : Bool) (s : IniSt M) :
    (dispatch cfg ch eol s).2.lastCh = s.lastCh := by
  unfold dispatch
  cases s.st
  case start => exact handleStart_lastCh _ _ _
  case group => exact handleGroup_lastCh _ _
  case key => exact handleKey_lastCh _ _
  case assign => exact handleAssign_lastCh _ _
  case value => exact handleValue_lastCh _ _ _ _
  case ignoreValue => exact handleIgnore_lastCh _ _ _
  case strValue => exact handleStr_lastCh _ _ _ _
  case u32Value => exact handleU32_lastCh _ _ _ _
  case hexU32Value => exact handleHexU32_lastCh _ _ _ _
  case blank => exact handleBlank_lastCh _ _ _
  case comment => exact handleComment_lastCh _ _ _
  all_goals simp [onError]

lemma parse_err (cfg : Cfg M) (ch : Int) (s : IniSt M) :
    (parse cfg ch s).1 = false → (parse cfg ch s).2.st = .error := by
  unfold parse wrapLine
  intro h
  simp only at h
  rw [if_neg (by simp [h])]
  exact dispatch_err _ _ _ _ h

lemma parse_lastCh (cfg : Cfg M) (ch : Int) (s : IniSt M) :
    (parse cfg ch s).2.lastCh = ch := by
  unfold parse wrapLine
  split
  · simp [dispatch_lastCh]
  · simp [dispatch_lastCh]

lemma parse_line_true (cfg : Cfg M) (ch : Int) (s : IniSt M) :
    (parse cfg ch s).1 = true →
    (parse cfg ch s).2.line = s.line + (if ch = 13 ∨ (ch = 10 ∧ s.lastCh ≠ 13) then 1 else 0) := by
  unfold parse wrapLine
  intro h
  simp only at h
  rw [if_pos h, addLineOf]
  simp [dispatch_line]
  rcases lt_trichotomy ch 0 with hlt | heq | hgt
  · rw [if_pos hlt]
    have h13 : ¬ (ch = 13 ∨ ch = 10 ∧ s.lastCh ≠ 13) := by
      rintro (rfl | ⟨rfl, _⟩) <;> omega
    simp [h13]
  · subst heq
    norm_num
  · rw [if_neg (by omega)]
    by_cases h13 : ch = 13
    · simp [h13]
    · by_cases h10 : ch = 10 ∧ s.lastCh ≠ 13
      · simp [h13, h10]
      · simp [h13, h10]

lemma parse_error_state (cfg : Cfg M) (ch : Int) (s : IniSt M) (h : s.st = .error) :
    parse cfg ch s = (false, { s with lastCh := ch }) := by
  unfold parse wrapLine dispatch
  cases s with
  | mk st gb kb sd nd v l i sb n lc ng q m =>
    simp only at h
    subst h
    simp [onError]

lemma feedAll_ok_line (cfg : Cfg M) :
    ∀ (input : List Int) (s : IniSt M),
      (feedAll cfg input s).1 = true →
      (feedAll cfg input s).2.line = s.line + lineTerms s.lastCh input := by
  intro input
  induction input with
  | nil =>
    intro s _
    simp [feedAll, lineTerms]
  | cons c cs ih =>
    intro s h
    have he : feedAll cfg (c :: cs) s =
        (if (parse cfg c s).1 then feedAll cfg cs (parse cfg c s).2
         else (false, (parse cfg c s).2)) := rfl
    rw [he] at h ⊢
    rcases Bool.eq_false_or_eq_true (parse cfg c s).1 with hr | hr
    · rw [if_pos hr] at h ⊢
      rw [ih _ h, parse_line_true cfg c s hr, parse_lastCh]
      simp only [lineTerms]
      omega
    · rw [if_neg (by simp [hr])] at h
      simp at h

lemma parseStringLoop_eq (cfg : Cfg M) :
    ∀ (len : Nat) (str : List Nat) (s : IniSt M),
      parseStringLoop cfg len str s =
        runBytes cfg ((str.take len).takeWhile (fun b => b ≠ 0)) s := by
  intro len
  induction len with
  | zero =>
    intro str s
    simp only [parseStringLoop, runBytes, feedAll, List.take_zero, List.takeWhile_nil,
      List.map_nil, List.nil_append]
    cases hr : (parse cfg (-1) s).1 <;> simp [hr]
  | succ n ih =>
    intro str s
    cases str with
    | nil =>
      simp only [parseStringLoop, runBytes, feedAll, List.take_nil, List.takeWhile_nil,
        List.map_nil, List.nil_append, List.headD_nil]
      cases hr : (parse cfg (-1) s).1 <;> simp [hr]
    | cons b bs =>
      by_cases hb : b = 0
      · subst hb
        have h1 : parseStringLoop cfg (n + 1) (0 :: bs) s =
            (if (parse cfg (-1) s).1 then 0 else (parse cfg (-1) s).2.line) := by
          rw [parseStringLoop]
          simp only [List.headD_cons]
          rw [if_pos trivial]
        have h2 : ((0 :: bs).take (n + 1)).takeWhile (fun x => x ≠ 0) = ([] : List Nat) := by
          simp [List.take_succ_cons, List.takeWhile_cons]
        rw [h1, h2]
        show _ = (if (feedAll cfg [-1] s).1 then 0 else (feedAll cfg [-1] s).2.line)
        cases hr : (parse cfg (-1) s).1 <;> simp [feedAll, hr]
      · have h1 : parseStringLoop cfg (n + 1) (b :: bs) s =
            (if (parse cfg (b : Int) s).1 then parseStringLoop cfg n bs (parse cfg (b : Int) s).2
             else (parse cfg (b : Int) s).2.line) := by
          rw [parseStringLoop]
          simp only [List.headD_cons, List.tail_cons]
          rw [if_neg hb]
        have h2 : ((b :: bs).take (n + 1)).takeWhile (fun x => x ≠ 0) =
            b :: (bs.take n).takeWhile (fun x => x ≠ 0) := by
          simp [List.take_succ_cons, List.takeWhile_cons, hb]
        rw [h1, h2]
        have hfe : feedAll cfg
              ((b :: (bs.take n).takeWhile (fun x => x ≠ 0)).map (fun x => (x : Int)) ++ [-1]) s =
            (if (parse cfg (b : Int) s).1 then
               feedAll cfg (((bs.take n).takeWhile (fun x => x ≠ 0)).map (fun x => (x : Int)) ++ [-1])
                 (parse cfg (b : Int) s).2
             else (false, (parse cfg (b : Int) s).2)) := rfl
        have h3 : runBytes cfg (b :: (bs.take n).takeWhile (fun x => x ≠ 0)) s =
            (if (parse cfg (b : Int) s).1 then
               runBytes cfg ((bs.take n).takeWhile (fun x => x ≠ 0)) (parse cfg (b : Int) s).2
             else (parse cfg (b : Int) s).2.line) := by
          simp only [runBytes]
          rw [hfe]
          rcases Bool.eq_false_or_eq_true (parse cfg (b : Int) s).1 with hr | hr
          · simp [hr]
          · simp [hr]
        rw [h3]
        rcases Bool.eq_false_or_eq_true (parse cfg (b : Int) s).1 with hr | hr
        · rw [if_pos hr, if_pos hr, ih]
        · simp [hr]

lemma dispatch_at_u32 (cfg : Cfg M) (ch : Int) (e : Bool) (t : IniSt M)
    (h : t.st = .u32Value) : dispatch cfg ch e t = handleU32 cfg ch e t := by
  unfold dispatch
  split <;> simp_all

lemma dispatch_at_hexU32 (cfg : Cfg M) (ch : Int) (e : Bool) (t : IniSt M)
    (h : t.st = .hexU32Value) : dispatch cfg ch e t = handleHexU32 cfg ch e t := by
  unfold dispatch
  split <;> simp_all

lemma dispatch_at_value (cfg : Cfg M) (ch : Int) (e : Bool) (t : IniSt M)
    (h : t.st = .value) : dispatch cfg ch e t = handleValue cfg ch e t := by
  unfold dispatch
  split <;> simp_all

lemma dispatch_at_strValue (cfg : Cfg M) (ch : Int) (e : Bool) (t : IniSt M)
    (h : t.st = .strValue) : dispatch cfg ch e t = handleStr cfg ch e t := by
  unfold dispatch
  split <;> simp_all

lemma dispatch_at_start (cfg : Cfg M) (ch : Int) (e : Bool) (t : IniSt M)
    (h : t.st = .start) : dispatch cfg ch e t = handleStart cfg ch t := by
  unfold dispatch
  split <;> simp_all

lemma dispatch_at_group (cfg : Cfg M) (ch : Int) (e : Bool) (t : IniSt M)
    (h : t.st = .group) : dispatch cfg ch e t = handleGroup ch t := by
  unfold dispatch
  split <;> simp_all

lemma i32Wrap_neg_of_le (n : Nat) (h : n ≤ 2147483648) :
    i32Wrap (-(i32OfBits n)) = -(n : Int) := by
  unfold i32Wrap i32OfBits
  by_cases h1 : n < 2147483648
  · rw [if_pos h1]
    have hc : (n : Int) < 2147483648 := by exact_mod_cast h1
    have hc0 : (0 : Int) ≤ (n : Int) := Int.ofNat_nonneg n
    rw [Int.emod_eq_of_lt (by omega) (by omega)]
    omega
  · have h4 : n = 2147483648 := le_antisymm h (le_of_not_lt h1)
    subst h4
    decide

/-! ## The claims -/

/-- C1: once the parser state is `PST_ERROR`, every subsequent call of
`parse` returns false and leaves the state unchanged (only `lastCh` is
overwritten with the new character), and whenever `parse` returns false the
parser state is `PST_ERROR` — so `Error` is sticky and no transition leaves
it. -/
theorem c1_error_sticky {M : Type} (cfg : Cfg M) (s : IniSt M) (ch : Int) :
    (s.st = .error →
      (parse cfg ch s).1 = false ∧ (parse cfg ch s).2 = { s with lastCh := ch }) ∧
    ((parse cfg ch s).1 = false → (parse cfg ch s).2.st = .error) := by
  refine ⟨fun h => ?_, parse_err cfg ch s⟩
  rw [parse_error_state cfg ch s h]
  exact ⟨rfl, rfl⟩

/-- Witness for C1 at a concrete error state and input character. -/
theorem c1_error_sticky_witness :
    (parse ⟨4, constMapper .keep⟩ 97 { initState 4 [] 0 0 with st := .error }).1 = false ∧
    (parse ⟨4, constMapper .keep⟩ 97 { initState 4 [] 0 0 with st := .error }).2.st = .error := by
  have h := c1_error_sticky (M := Nat) ⟨4, constMapper .keep⟩
    { initState 4 [] 0 0 with st := .error } 97
  exact ⟨(h.1 rfl).1, h.2 (h.1 rfl).1⟩

/-- C8: for every input sequence accepted without error from a fresh
parser, the final line counter equals one plus the number of line
terminators, where a CR counts and an LF counts only if the previous byte
was not CR. -/
theorem c8_line_counting {M : Type} (cfg : Cfg M) (maxIdLen : Nat) (sdest0 : List Nat)
    (ndest0 : Nat) (m0 : M) (input : List Int)
    (h : (feedAll cfg input (initState maxIdLen sdest0 ndest0 m0)).1 = true) :
    (feedAll cfg input (initState maxIdLen sdest0 ndest0 m0)).2.line =
      1 + lineTerms (-1) input := by
  rw [feedAll_ok_line cfg input _ h]
  rfl

/-- Witness for C8: a run with a CR LF pair (counted once), a lone LF and a
lone CR. -/
theorem c8_line_counting_witness :
    (feedAll ⟨8, constMapper .keep⟩ [91, 97, 93, 13, 10, 10, 13]
      (initState 8 [] 0 0)).1 = true ∧
    (feedAll ⟨8, constMapper .keep⟩ [91, 97, 93, 13, 10, 10, 13]
      (initState 8 [] 0 0)).2.line = 1 + lineTerms (-1) [91, 97, 93, 13, 10, 10, 13] := by
  refine ⟨by decide, ?_⟩
  exact c8_line_counting ⟨8, constMapper .keep⟩ 8 [] 0 0 _ (by decide)

/-- C10: the length-bounded entry point `parseString(str, len, mappingFn)`
(and the identical loop of `iniParseString<MaxId>(str, len, mappingFn)`)
behaves exactly like feeding the bytes of `str` up to the first NUL byte
and at most `len` bytes, followed by the end-of-input sentinel: a NUL at
position `i < len` truncates the input there, otherwise end of input is
injected after exactly `len` bytes; the result is 0 when no error occurred
and the failing line otherwise. -/
theorem c10_length_bounded_entry {M : Type} (cfg : Cfg M) (str : List Nat) (len : Nat)
    (sdest0 : List Nat) (ndest0 : Nat) (m0 : M) :
    parseString cfg str len sdest0 ndest0 m0 =
      runBytes cfg ((str.take len).takeWhile (fun b => b ≠ 0))
        (initState cfg.maxIdLen sdest0 ndest0 m0) := by
  unfold parseString
  exact parseStringLoop_eq cfg len str _

/-- C2 (the failing input): the decimal digit sequence `4772185890`
denotes a mathematical value above `2^32 - 1`, yet `parse` accepts
`k=4772185890` under a full-range unsigned binding and commits the wrapped
accumulator value 477218594 to the destination instead of entering
`PST_ERROR`: the `oldNum > num` wrap check misses this overflow. -/
theorem c2_overflow_committed :
    (feedAll ⟨16, constMapper (.u32 0 4294967295)⟩
        (iniOverflow.map (fun b => (b : Int)) ++ [-1]) (initState 16 [] 0 0)).1 = true ∧
    (feedAll ⟨16, constMapper (.u32 0 4294967295)⟩
        (iniOverflow.map (fun b => (b : Int)) ++ [-1]) (initState 16 [] 0 0)).2.ndest =
      477218594 ∧
    4294967295 < 4 * 1000000000 + 772185890 := by
  refine ⟨by decide, by decide, by norm_num⟩

/-- C3 (the failing input): with a two-argument mapping provider that
counts its invocations, the single successfully parsed value `0x1F` under a
decimal unsigned binding triggers three invocations (selection, an extra
verification commit at the `x`, and the final commit), not two; moreover
the same input is rejected outright when the binding minimum is 1, because
the extra commit at the `x` range-checks the intermediate value 0. -/
theorem c3_three_invocations :
    (feedAll ⟨16, constMapper (.u32 0 4294967295)⟩
        (iniHexPrefixed.map (fun b => (b : Int)) ++ [-1]) (initState 16 [] 0 0)).1 = true ∧
    (feedAll ⟨16, constMapper (.u32 0 4294967295)⟩
        (iniHexPrefixed.map (fun b => (b : Int)) ++ [-1]) (initState 16 [] 0 0)).2.m = 3 ∧
    (feedAll ⟨16, constMapper (.u32 0 4294967295)⟩
        (iniHexPrefixed.map (fun b => (b : Int)) ++ [-1]) (initState 16 [] 0 0)).2.ndest = 31 ∧
    (feedAll ⟨16, constMapper (.u32 1 100)⟩
        (iniHexPrefixed.map (fun b => (b : Int)) ++ [-1]) (initState 16 [] 0 0)).1 = false := by
  refine ⟨by decide, by decide, by decide, by decide⟩

/-- C5 (the failing input): after the record `KEYLONG = 1`, the record
`AB=2` terminates its key directly with `=`; no null terminator is written
on that path, so at the selection call the key buffer reads `ABYLONG`
(stale bytes of the previous, longer key) instead of `AB`. -/
theorem c5_stale_key_bytes :
    (feedAll ⟨16, logMapper⟩ (iniStaleKey.map (fun b => (b : Int)) ++ [-1])
        (initState 16 [] 0 [])).1 = true ∧
    (feedAll ⟨16, logMapper⟩ (iniStaleKey.map (fun b => (b : Int)) ++ [-1])
        (initState 16 [] 0 [])).2.m =
      [[75, 69, 89, 76, 79, 78, 71], [65, 66, 89, 76, 79, 78, 71]] ∧
    [65, 66, 89, 76, 79, 78, 71] ≠ [65, 66] := by
  refine ⟨by decide, by decide, by decide⟩

/-- C7: closing a negative number value (`numNeg` set, at least one digit)
commits exactly when `num ≤ 0x80000000` and `min ≤ -(num as i32) ≤ max`
(bounds read as `int32_t`), in which case `-(num as i32)` — equal to
`-num` for `num ≤ 2^31` — is stored into the destination; otherwise
`parse` enters `PST_ERROR`. -/
theorem c7_signed_close {M : Type} (cfg : Cfg M) (s : IniSt M) (ch : Int) (minB maxB : Nat)
    (hver : ∀ m g k, (cfg.mapper m true g k).1 = true)
    (hst : s.st = .u32Value) (hneg : s.numNeg = true) (hidx : s.idx ≠ 0)
    (hval : s.val = .vnum ⟨minB, maxB⟩) (hch : ch < 0 ∨ ch = 13 ∨ ch = 10) :
    ((s.num ≤ 2147483648 ∧ i32OfBits minB ≤ -(s.num : Int) ∧ -(s.num : Int) ≤ i32OfBits maxB) →
       (parse cfg ch s).1 = true ∧ (parse cfg ch s).2.st = .start ∧
       (parse cfg ch s).2.ndest = bitsOfI32 (-(s.num : Int))) ∧
    (¬ (s.num ≤ 2147483648 ∧ i32OfBits minB ≤ -(s.num : Int) ∧ -(s.num : Int) ≤ i32OfBits maxB) →
       (parse cfg ch s).1 = false ∧ (parse cfg ch s).2.st = .error) := by
  have hinv : ∀ (t : IniSt M), (invokeMapper cfg true t).1 = true :=
    fun t => hver t.m t.groupBuf t.keyBuf
  have heol : eolOf ch = true := by
    unfold eolOf
    rcases hch with h | h | h <;> simp [h]
  have hdg : isdigit ch = false := by
    unfold isdigit
    rcases hch with h | h | h
    · have h48 : ¬ (48 ≤ ch) := by omega
      simp [h48]
    · subst h; decide
    · subst h; decide
  have hred : parse cfg ch s =
      wrapLine (addLineOf ch s.lastCh) (closeNum cfg { s with lastCh := ch, st := .start }) := by
    unfold parse
    rw [dispatch_at_u32 cfg ch (eolOf ch) { s with lastCh := ch } hst, heol]
    unfold handleU32
    rw [hdg]
    simp
  rw [hred]
  have hcn : closeNum cfg { s with lastCh := ch, st := .start } =
      checkNumRange cfg { s with lastCh := ch, st := .start } := by
    unfold closeNum
    rw [if_neg hidx]
  rw [hcn]
  unfold checkNumRange
  rw [show ({ s with lastCh := ch, st := PState.start } : IniSt M).val = .vnum ⟨minB, maxB⟩ from hval]
  simp only [hneg, if_true]
  by_cases hbig : s.num > 2147483648
  · rw [if_pos hbig]
    constructor
    · intro hcond
      omega
    · intro _
      exact ⟨rfl, rfl⟩
  · rw [if_neg hbig]
    have hle : s.num ≤ 2147483648 := le_of_not_lt hbig
    rw [i32Wrap_neg_of_le s.num hle]
    by_cases hrange : i32OfBits minB ≤ -(s.num : Int) ∧ -(s.num : Int) ≤ i32OfBits maxB
    · rw [if_pos hrange]
      constructor
      · intro _
        unfold invokeMapper wrapLine
        simp only [hver]
        exact ⟨rfl, rfl, rfl⟩
      · intro hcond
        exact absurd ⟨hle, hrange.1, hrange.2⟩ hcond
    · rw [if_neg hrange]
      constructor
      · intro hcond
        exact absurd ⟨hcond.2.1, hcond.2.2⟩ hrange
      · intro _
        exact ⟨rfl, rfl⟩

/-- Witness for C7: a state holding the parsed digits of `-2147483648`
under a signed binding with range `[-2^31, 2^31 - 1]` commits the stored
pattern `0x80000000`, i.e. the value `-2147483648`. -/
theorem c7_signed_close_witness :
    (parse ⟨16, constMapper .keep⟩ (-1)
        { initState 16 [] 0 0 with
          st := .u32Value, numNeg := true, idx := 10
          num := 2147483648, val := .vnum ⟨2147483648, 2147483647⟩ }).1 = true ∧
    (parse ⟨16, constMapper .keep⟩ (-1)
        { initState 16 [] 0 0 with
          st := .u32Value, numNeg := true, idx := 10
          num := 2147483648, val := .vnum ⟨2147483648, 2147483647⟩ }).2.ndest =
      bitsOfI32 (-(2147483648 : Int)) := by
  have h := c7_signed_close (M := Nat) ⟨16, constMapper .keep⟩
    { initState 16 [] 0 0 with
      st := .u32Value, numNeg := true, idx := 10
      num := 2147483648, val := .vnum ⟨2147483648, 2147483647⟩ }
    (-1) 2147483648 2147483647
    (fun _ _ _ => rfl) rfl rfl (by decide) rfl (by norm_num)
  have hc := h.1 ⟨by norm_num, by decide, by decide⟩
  exact ⟨hc.1, hc.2.2⟩

/-- C9: a record value that is empty (end of line or end of input directly
after `=` and optional blanks) makes `parse` enter `PST_ERROR` under every
number binding (missing digits, before any commit), while under a string
binding the empty string is committed: the null terminator is written at
offset 0, the verification call of the mapping provider is made (two
invocations in total) and parsing succeeds back to `PST_START`. -/
theorem c9_empty_value (s : IniSt Nat) (ch : Int) (k cap minB maxB : Nat)
    (hst : s.st = .value) (hch : ch < 0 ∨ ch = 13 ∨ ch = 10) (hcap : 0 < cap) :
    ((parse ⟨k, constMapper (.u32 minB maxB)⟩ ch s).1 = false ∧
     (parse ⟨k, constMapper (.u32 minB maxB)⟩ ch s).2.st = .error ∧
     (parse ⟨k, constMapper (.u32 minB maxB)⟩ ch s).2.ndest = s.ndest) ∧
    ((parse ⟨k, constMapper (.hexU32 minB maxB)⟩ ch s).1 = false ∧
     (parse ⟨k, constMapper (.hexU32 minB maxB)⟩ ch s).2.st = .error) ∧
    ((parse ⟨k, constMapper (.i32 minB maxB)⟩ ch s).1 = false ∧
     (parse ⟨k, constMapper (.i32 minB maxB)⟩ ch s).2.st = .error) ∧
    ((parse ⟨k, constMapper (.str cap)⟩ ch s).1 = true ∧
     (parse ⟨k, constMapper (.str cap)⟩ ch s).2.st = .start ∧
     (parse ⟨k, constMapper (.str cap)⟩ ch s).2.sdest = s.sdest.set 0 0 ∧
     (parse ⟨k, constMapper (.str cap)⟩ ch s).2.m = s.m + 2) := by
  have heol : eolOf ch = true := by
    unfold eolOf
    rcases hch with h | h | h <;> simp [h]
  have hbl : isblank ch = false := by
    unfold isblank
    rcases hch with h | h | h
    · have h1 : ¬ ch = 32 := by omega
      have h2 : ¬ ch = 9 := by omega
      simp [h1, h2]
    · subst h; decide
    · subst h; decide
  have hdg : isdigit ch = false := by
    unfold isdigit
    rcases hch with h | h | h
    · have h1 : ¬ (48 ≤ ch) := by omega
      simp [h1]
    · subst h; decide
    · subst h; decide
  have hxdg : isxdigit ch = false := by
    unfold isxdigit isdigit
    rcases hch with h | h | h
    · have h1 : ¬ (48 ≤ ch) := by omega
      have h2 : ¬ (65 ≤ ch) := by omega
      have h3 : ¬ (97 ≤ ch) := by omega
      simp [h1, h2, h3]
    · subst h; decide
    · subst h; decide
  have h34 : ¬ (ch = 34 ∨ ch = 39) := by
    rcases hch with h | h | h <;> omega
  have h35 : ¬ ch = 35 := by
    rcases hch with h | h | h <;> omega
  have h45 : ¬ ch = 45 := by
    rcases hch with h | h | h <;> omega
  have hgeq : ¬ (0 + 0 ≥ cap) := by omega
  refine ⟨?_, ?_, ?_, ?_⟩
  · unfold parse
    rw [dispatch_at_value _ ch (eolOf ch) { s with lastCh := ch } hst, heol]
    simp [handleValue, hbl, invokeMapper, constMapper, applyChoice, handleU32, hdg,
      closeNum, onError, wrapLine]
  · unfold parse
    rw [dispatch_at_value _ ch (eolOf ch) { s with lastCh := ch } hst, heol]
    simp [handleValue, hbl, invokeMapper, constMapper, applyChoice, handleHexU32, hxdg,
      closeNum, onError, wrapLine]
  · unfold parse
    rw [dispatch_at_value _ ch (eolOf ch) { s with lastCh := ch } hst, heol]
    by_cases hmin : i32OfBits minB < 0 <;> by_cases hmax : i32OfBits maxB < 0 <;>
      simp [handleValue, hbl, invokeMapper, constMapper, applyChoice, h45, hmin, hmax,
        handleU32, hdg, closeNum, onError, wrapLine]
  · unfold parse
    rw [dispatch_at_value _ ch (eolOf ch) { s with lastCh := ch } hst, heol]
    simp [handleValue, hbl, invokeMapper, constMapper, applyChoice, h34, handleStr,
      hgeq, h35, closeStr, trimString, writeAt, byteOf, onError, wrapLine]

/-- Witness for C9 at the end-of-input character in a concrete `PST_VALUE`
state. -/
theorem c9_empty_value_witness :
    ((parse ⟨16, constMapper (.u32 0 4294967295)⟩ (-1)
        { initState 16 [0, 0, 0, 0] 7 5 with st := .value }).1 = false ∧
     (parse ⟨16, constMapper (.u32 0 4294967295)⟩ (-1)
        { initState 16 [0, 0, 0, 0] 7 5 with st := .value }).2.st = .error ∧
     (parse ⟨16, constMapper (.u32 0 4294967295)⟩ (-1)
        { initState 16 [0, 0, 0, 0] 7 5 with st := .value }).2.ndest =
       ({ initState 16 [0, 0, 0, 0] 7 5 with st := .value } : IniSt Nat).ndest) ∧
    ((parse ⟨16, constMapper (.hexU32 0 4294967295)⟩ (-1)
        { initState 16 [0, 0, 0, 0] 7 5 with st := .value }).1 = false ∧
     (parse ⟨16, constMapper (.hexU32 0 4294967295)⟩ (-1)
        { initState 16 [0, 0, 0, 0] 7 5 with st := .value }).2.st = .error) ∧
    ((parse ⟨16, constMapper (.i32 0 4294967295)⟩ (-1)
        { initState 16 [0, 0, 0, 0] 7 5 with st := .value }).1 = false ∧
     (parse ⟨16, constMapper (.i32 0 4294967295)⟩ (-1)
        { initState 16 [0, 0, 0, 0] 7 5 with st := .value }).2.st = .error) ∧
    ((parse ⟨16, constMapper (.str 4)⟩ (-1)
        { initState 16 [0, 0, 0, 0] 7 5 with st := .value }).1 = true ∧
     (parse ⟨16, constMapper (.str 4)⟩ (-1)
        { initState 16 [0, 0, 0, 0] 7 5 with st := .value }).2.st = .start ∧
     (parse ⟨16, constMapper (.str 4)⟩ (-1)
        { initState 16 [0, 0, 0, 0] 7 5 with st := .value }).2.sdest =
       ({ initState 16 [0, 0, 0, 0] 7 5 with st := .value } : IniSt Nat).sdest.set 0 0 ∧
     (parse ⟨16, constMapper (.str 4)⟩ (-1)
        { initState 16 [0, 0, 0, 0] 7 5 with st := .value }).2.m =
       ({ initState 16 [0, 0, 0, 0] 7 5 with st := .value } : IniSt Nat).m + 2) :=
  c9_empty_value { initState 16 [0, 0, 0, 0] 7 5 with st := .value } (-1) 16 4 0 4294967295
    rfl (by norm_num) (by norm_num)

lemma feedAll_cons (cfg : Cfg M) (c : Int) (cs : List Int) (s : IniSt M) :
    feedAll cfg (c :: cs) s =
      (if (parse cfg c s).1 then feedAll cfg cs (parse cfg c s).2
       else (false, (parse cfg c s).2)) := rfl

lemma wrapLine_true (n : Nat) (s : IniSt M) :
    wrapLine n (true, s) = (true, { s with line := s.line + n }) := rfl

lemma wrapLine_onError (n : Nat) (s : IniSt M) :
    wrapLine n (onError s) = onError s := rfl

lemma isalpha_isValidIdChar (c : Int) (h : isalpha c = true) : isValidIdChar c = true := by
  unfold isValidIdChar isalnum
  rw [h]
  simp

lemma handleGroup_vstr (ch : Int) (s : IniSt M) (d : StrDst) (p e : Nat)
    (hval : s.val = .vstr ⟨d, p, e⟩) :
    handleGroup ch s =
      (if p ≥ e then onError s
       else if isValidIdChar ch then
         (if d = .group ∧ p = 0 ∧ ¬ isalpha ch = true then onError s
          else (true, { writeAt s ⟨d, p, e⟩ p ch with val := .vstr ⟨d, p + 1, e⟩ }))
       else if ch = 93 then (true, { writeAt s ⟨d, p, e⟩ p 0 with st := .start })
       else onError s) := by
  unfold handleGroup
  rw [hval]

lemma groupRun (cfg : Cfg M) :
    ∀ (ids : List Int) (j : Nat) (s : IniSt M),
      s.st = .group → s.val = .vstr ⟨.group, j, cfg.maxIdLen⟩ →
      (∀ c ∈ ids, c ≠ 93) →
      ((feedAll cfg (ids ++ [93]) s).1 = true ↔
        (j + ids.length < cfg.maxIdLen ∧ ids.all (fun c => isValidIdChar c) = true ∧
         (j = 0 → ∀ c, ids.head? = some c → isalpha c = true))) := by
  intro ids
  induction ids with
  | nil =>
    intro j s hst hval _
    have hpar : parse cfg 93 s =
        wrapLine (addLineOf 93 s.lastCh) (handleGroup 93 { s with lastCh := 93 }) := by
      unfold parse
      rw [dispatch_at_group cfg 93 (eolOf 93) { s with lastCh := 93 } hst]
    rw [List.nil_append, feedAll_cons, hpar,
      handleGroup_vstr 93 { s with lastCh := 93 } .group j cfg.maxIdLen hval]
    by_cases hj : j ≥ cfg.maxIdLen
    · rw [if_pos hj, wrapLine_onError]
      simp [onError]
      omega
    · rw [if_neg hj, if_neg (by decide : ¬ isValidIdChar (93 : Int) = true), if_pos rfl,
        wrapLine_true]
      simp [feedAll]
      omega
  | cons c cs ih =>
    intro j s hst hval hni
    have hc93 : c ≠ 93 := hni c (List.mem_cons_self c cs)
    have hni2 : ∀ x ∈ cs, x ≠ 93 := fun x hx => hni x (List.mem_cons_of_mem c hx)
    have hpar : parse cfg c s =
        wrapLine (addLineOf c s.lastCh) (handleGroup c { s with lastCh := c }) := by
      unfold parse
      rw [dispatch_at_group cfg c (eolOf c) { s with lastCh := c } hst]
    rw [List.cons_append, feedAll_cons, hpar,
      handleGroup_vstr c { s with lastCh := c } .group j cfg.maxIdLen hval]
    by_cases hj : j ≥ cfg.maxIdLen
    · rw [if_pos hj, wrapLine_onError]
      simp [onError]
      omega
    · rw [if_neg hj]
      by_cases hv : isValidIdChar c = true
      · rw [if_pos hv]
        by_cases hfc : j = 0 ∧ ¬ isalpha c = true
        · rw [if_pos (show StrDst.group = StrDst.group ∧ j = 0 ∧ ¬ isalpha c = true from
            ⟨rfl, hfc.1, hfc.2⟩), wrapLine_onError]
          refine iff_of_false (by simp [onError]) ?_
          rintro ⟨-, -, hall⟩
          exact absurd (hall hfc.1 c rfl) hfc.2
        · rw [if_neg (show ¬ (StrDst.group = StrDst.group ∧ j = 0 ∧ ¬ isalpha c = true) from
            fun hcon => hfc ⟨hcon.2.1, hcon.2.2⟩), wrapLine_true]
          rw [if_pos rfl]
          rw [ih (j + 1) _ (by simp [writeAt, hst]) (by simp [writeAt]) hni2]
          constructor
          · rintro ⟨h1, h2, -⟩
            refine ⟨by simp only [List.length_cons]; omega, ?_, fun hj0 d hd => ?_⟩
            · rw [List.all_cons, hv, Bool.true_and]
              exact h2
            · cases hd
              by_contra hna
              exact hfc ⟨hj0, hna⟩
          · rintro ⟨h1, h2, -⟩
            rw [List.length_cons] at h1
            rw [List.all_cons, Bool.and_eq_true] at h2
            exact ⟨by omega, h2.2, fun hj1 => absurd hj1 (by omega)⟩
      · rw [if_neg hv, if_neg hc93, wrapLine_onError]
        refine iff_of_false (by simp [onError]) ?_
        rintro ⟨-, h2, -⟩
        rw [List.all_cons, Bool.and_eq_true] at h2
        exact absurd h2.1 (by simp [hv])

/-- C4 counterexample: the empty group header `[]` is not rejected — the
parser accepts it, returns to `PST_START` and leaves the group name empty,
because the letter requirement of `PST_GROUP` is only checked when an
identifier character is present. -/
theorem c4_empty_header_accepted :
    (feedAll ⟨16, constMapper .keep⟩ [91, 93] (initState 16 [] 0 0)).1 = true ∧
    (feedAll ⟨16, constMapper .keep⟩ [91, 93] (initState 16 [] 0 0)).2.st = .start ∧
    cstr (feedAll ⟨16, constMapper .keep⟩ [91, 93] (initState 16 [] 0 0)).2.groupBuf = [] := by
  refine ⟨by decide, by decide, by decide⟩

/-- C4 as amended: fed from `PST_START`, a bracketed header `[` ids `]`
(with no `]` inside the name) is accepted if and only if the name fits the
identifier bound (`length < MaxId`) and is either empty or an identifier:
an ASCII letter followed by letters, digits, `_` or `.`. -/
theorem c4_group_header {M : Type} (cfg : Cfg M) (s : IniSt M) (ids : List Int)
    (hs : s.st = .start) (hni : ∀ c ∈ ids, c ≠ 93) :
    ((feedAll cfg (91 :: (ids ++ [93])) s).1 = true ↔
      (ids.length < cfg.maxIdLen ∧ (ids = [] ∨ isIdent ids = true))) := by
  rw [feedAll_cons]
  have hpar : parse cfg 91 s =
      wrapLine (addLineOf 91 s.lastCh) (handleStart cfg 91 { s with lastCh := 91 }) := by
    unfold parse
    rw [dispatch_at_start cfg 91 (eolOf 91) { s with lastCh := 91 } hs]
  have hstart : handleStart cfg 91 { s with lastCh := 91 } =
      (true, { s with
               lastCh := 91, st := .group
               val := .vstr ⟨.group, 0, cfg.maxIdLen⟩ }) := by
    unfold handleStart
    rw [if_neg (by omega), if_pos rfl]
  rw [hpar, hstart, wrapLine_true, if_pos rfl]
  rw [groupRun cfg ids 0 _ (by simp) (by simp) hni]
  cases ids with
  | nil => simp [isIdent]
  | cons c cs =>
    constructor
    · rintro ⟨h1, h2, h3⟩
      rw [List.all_cons, Bool.and_eq_true] at h2
      refine ⟨by omega, Or.inr ?_⟩
      rw [isIdent, Bool.and_eq_true]
      exact ⟨h3 rfl c rfl, h2.2⟩
    · rintro ⟨h1, h2⟩
      rcases h2 with h2 | h2
      · exact absurd h2 (by simp)
      · rw [isIdent, Bool.and_eq_true] at h2
        refine ⟨by omega, ?_, fun _ d hd => ?_⟩
        · rw [List.all_cons, Bool.and_eq_true]
          exact ⟨isalpha_isValidIdChar c h2.1, h2.2⟩
        · cases hd
          exact h2.1

/-- Witness for the amended C4 at the one-letter header `[A]`. -/
theorem c4_group_header_witness :
    (feedAll ⟨16, constMapper .keep⟩ (91 :: ([65] ++ [93])) (initState 16 [] 0 0)).1 = true :=
  (c4_group_header ⟨16, constMapper .keep⟩ (initState 16 [] 0 0) [65] rfl
    (by decide)).mpr (by decide)

lemma writeSeq_cons_shift : ∀ (w : List Int) (x : Nat) (buf : List Nat) (i : Nat),
    writeSeq (x :: buf) (i + 1) w = x :: writeSeq buf i w := by
  intro w
  induction w with
  | nil => intro x buf i; rfl
  | cons c cs ih =>
    intro x buf i
    have h1 : writeSeq (x :: buf) (i + 1) (c :: cs) =
        writeSeq (x :: buf.set i (byteOf c)) (i + 2) cs := rfl
    rw [h1, ih]
    rfl

lemma writeSeq_length : ∀ (w : List Int) (buf : List Nat) (i : Nat),
    (writeSeq buf i w).length = buf.length := by
  intro w
  induction w with
  | nil => intro buf i; rfl
  | cons c cs ih =>
    intro buf i
    show (writeSeq (buf.set i (byteOf c)) (i + 1) cs).length = _
    rw [ih, List.length_set]

lemma set_get_ne : ∀ (l : List Nat) (i j a : Nat), i ≠ j →
    (l.set i a).get? j = l.get? j := by
  intro l
  induction l with
  | nil => intro i j a _; simp
  | cons x xs ih =>
    intro i j a h
    cases i with
    | zero =>
      cases j with
      | zero => exact absurd rfl h
      | succ j => rfl
    | succ i =>
      cases j with
      | zero => rfl
      | succ j =>
        show (xs.set i a).get? j = xs.get? j
        exact ih i j a (fun hh => h (by rw [hh]))

lemma writeSeq_get_ge : ∀ (w : List Int) (buf : List Nat) (i jj : Nat),
    i + w.length ≤ jj → (writeSeq buf i w).get? jj = buf.get? jj := by
  intro w
  induction w with
  | nil => intro buf i jj _; rfl
  | cons c cs ih =>
    intro buf i jj h
    show (writeSeq (buf.set i (byteOf c)) (i + 1) cs).get? jj = _
    rw [List.length_cons] at h
    rw [ih _ (i + 1) jj (by omega), set_get_ne _ i jj _ (by omega)]

lemma mem_set_zero : ∀ (l : List Nat) (T : Nat), T < l.length → (0 : Nat) ∈ l.set T 0 := by
  intro l
  induction l with
  | nil => intro T h; simp at h
  | cons x xs ih =>
    intro T h
    cases T with
    | zero => simp
    | succ T =>
      show 0 ∈ x :: xs.set T 0
      exact List.mem_cons_of_mem x (ih T (by simpa using h))

lemma cstr_write_set : ∀ (v : List Int) (buf : List Nat) (T : Nat),
    T ≤ v.length → v.length < buf.length → (∀ c ∈ v, byteOf c ≠ 0) →
    cstr ((writeSeq buf 0 v).set T 0) = (v.take T).map byteOf := by
  intro v
  induction v with
  | nil =>
    intro buf T hT hlen _
    obtain rfl : T = 0 := Nat.le_zero.mp hT
    cases buf with
    | nil => simp at hlen
    | cons b0 br =>
      show cstr ((b0 :: br).set 0 0) = []
      simp [cstr]
  | cons c cs ih =>
    intro buf T hT hlen hnz
    cases buf with
    | nil => simp at hlen
    | cons b0 br =>
      have hw : writeSeq (b0 :: br) 0 (c :: cs) = byteOf c :: writeSeq br 0 cs := by
        show writeSeq (byteOf c :: br) 1 cs = _
        exact writeSeq_cons_shift cs (byteOf c) br 0
      rw [hw]
      cases T with
      | zero => simp [cstr]
      | succ T =>
        have hnzc : byteOf c ≠ 0 := hnz c (List.mem_cons_self c cs)
        show cstr (byteOf c :: (writeSeq br 0 cs).set T 0) = byteOf c :: (cs.take T).map byteOf
        rw [show cstr (byteOf c :: (writeSeq br 0 cs).set T 0) =
            byteOf c :: cstr ((writeSeq br 0 cs).set T 0) from by
          simp [cstr, List.takeWhile_cons, hnzc]]
        rw [ih br T (by simpa using hT) (by simpa using hlen)
          (fun d hd => hnz d (List.mem_cons_of_mem c hd))]

lemma blankAcc_snoc : ∀ (w : List Int) (b i : Nat) (c : Int),
    blankAcc b i (w ++ [c]) =
      (if isblank c then (if blankAcc b i w = 0 then i + w.length else blankAcc b i w)
       else 0) := by
  intro w
  induction w with
  | nil =>
    intro b i c
    show blankAcc (if isblank c then (if b = 0 then i else b) else 0) (i + 1) [] = _
    by_cases hc : isblank c = true <;> simp [blankAcc, hc]
  | cons d ds ih =>
    intro b i c
    show blankAcc (if isblank d then (if b = 0 then i else b) else 0) (i + 1) (ds ++ [c]) = _
    rw [ih]
    have hlen : i + (d :: ds).length = (i + 1) + ds.length := by
      rw [List.length_cons]
      omega
    rw [hlen]
    rfl

lemma dropTrailing_snoc_blank (w : List Int) (c : Int) (hc : isblank c = true) :
    dropTrailingBlanksI (w ++ [c]) = dropTrailingBlanksI w := by
  unfold dropTrailingBlanksI
  rw [List.reverse_append]
  simp [List.dropWhile_cons, hc]

lemma dropTrailing_snoc_keep (w : List Int) (c : Int) (hc : isblank c = false) :
    dropTrailingBlanksI (w ++ [c]) = w ++ [c] := by
  unfold dropTrailingBlanksI
  rw [List.reverse_append]
  simp [List.dropWhile_cons, hc]

lemma dropTrailing_append : ∀ (v : List Int),
    dropTrailingBlanksI v ++ (v.reverse.takeWhile (fun c => isblank c)).reverse = v := by
  intro v
  unfold dropTrailingBlanksI
  rw [← List.reverse_append, List.takeWhile_append_dropWhile, List.reverse_reverse]

lemma dropTrailing_take (v : List Int) :
    dropTrailingBlanksI v = v.take (dropTrailingBlanksI v).length := by
  conv_lhs => rw [show dropTrailingBlanksI v =
    ((dropTrailingBlanksI v ++ (v.reverse.takeWhile (fun c => isblank c)).reverse).take
      (dropTrailingBlanksI v).length) from (List.take_left _ _).symm]
  rw [dropTrailing_append]

lemma dropTrailing_length_le (v : List Int) :
    (dropTrailingBlanksI v).length ≤ v.length := by
  have h := congrArg List.length (dropTrailing_append v)
  rw [List.length_append] at h
  omega

lemma blankAcc_tb : ∀ (v : List Int),
    (∀ c0, v.head? = some c0 → isblank c0 = false) →
    (blankAcc 0 0 v = 0 → dropTrailingBlanksI v = v) ∧
    (blankAcc 0 0 v ≠ 0 → blankAcc 0 0 v = (dropTrailingBlanksI v).length) := by
  intro v
  induction v using List.reverseRecOn with
  | nil =>
    intro _
    exact ⟨fun _ => rfl, fun h => absurd rfl h⟩
  | append_singleton w c ih =>
    intro hd
    rw [blankAcc_snoc]
    by_cases hbc : isblank c = true
    · rw [if_pos hbc]
      by_cases hb0 : blankAcc 0 0 w = 0
      · rw [if_pos hb0]
        constructor
        · intro h0
          have hw : w = [] := List.length_eq_zero.mp (by omega)
          subst hw
          have := hd c (by rfl)
          rw [hbc] at this
          cases this
        · intro hne
          have hwne : w ≠ [] := by
            intro hw
            subst hw
            simp at hne
          have hdw : ∀ c0, w.head? = some c0 → isblank c0 = false := by
            intro c0 hc0
            exact hd c0 (by rw [← hc0]; exact List.head?_append_of_ne_nil _ hwne)
          have hdt := (ih hdw).1 hb0
          rw [dropTrailing_snoc_blank w c hbc, hdt]
          omega
      · rw [if_neg hb0]
        refine ⟨fun h => absurd h hb0, fun _ => ?_⟩
        have hwne : w ≠ [] := by
          intro hw
          subst hw
          simp [blankAcc] at hb0
        have hdw : ∀ c0, w.head? = some c0 → isblank c0 = false := by
          intro c0 hc0
          exact hd c0 (by rw [← hc0]; exact List.head?_append_of_ne_nil _ hwne)
        rw [dropTrailing_snoc_blank w c hbc]
        exact (ih hdw).2 hb0
    · rw [if_neg hbc]
      have hbc2 : isblank c = false := Bool.eq_false_iff.mpr hbc
      refine ⟨fun _ => dropTrailing_snoc_keep w c hbc2, fun h => absurd rfl h⟩

lemma handleStr_vstr (cfg : Cfg M) (ch : Int) (eol : Bool) (s : IniSt M) (d : StrDst)
    (p e : Nat) (hval : s.val = .vstr ⟨d, p, e⟩) :
    handleStr cfg ch eol s =
      (if p + s.idx ≥ e then onError s
       else if ch = 35 ∧ s.quote = 0 then closeStr cfg .comment ⟨d, p, e⟩ s
       else if ch = s.quote ∧ s.quote ≠ 0 then closeStr cfg .blank ⟨d, p, e⟩ s
       else if eol ∧ s.quote = 0 then closeStr cfg .start ⟨d, p, e⟩ s
       else if isValidStrChar ch then
         (let s1 := if isblank ch then
                      (if s.strBlank = 0 then { s with strBlank := s.idx } else s)
                    else { s with strBlank := 0 }
          (true, { writeAt s1 ⟨d, p, e⟩ (p + s1.idx) ch with idx := s1.idx + 1 }))
       else onError s) := by
  unfold handleStr
  rw [hval]

lemma validStr_not_eol (c : Int) (h : isValidStrChar c = true) : eolOf c = false := by
  unfold isValidStrChar at h
  unfold eolOf
  simp only [Bool.and_eq_true, Bool.or_eq_true, decide_eq_true_eq] at h
  simp only [Bool.or_eq_false_iff, decide_eq_false_iff_not]
  omega

lemma addLineOf_zero (c last : Int) (h : eolOf c = false) : addLineOf c last = 0 := by
  unfold eolOf at h
  simp only [Bool.or_eq_false_iff, decide_eq_false_iff_not] at h
  unfold addLineOf
  rw [if_neg h.1.1, if_neg h.1.2, if_neg (fun hand => h.2 hand.1)]

lemma strFull (cfg : Cfg M) (ch : Int) (s : IniSt M) (cap : Nat)
    (hst : s.st = .strValue) (hval : s.val = .vstr ⟨.user, 0, cap⟩)
    (hcap : cap ≤ s.idx) :
    parse cfg ch s = (false, { s with lastCh := ch, st := .error }) := by
  unfold parse
  rw [dispatch_at_strValue cfg ch (eolOf ch) { s with lastCh := ch } hst]
  rw [handleStr_vstr cfg ch (eolOf ch) { s with lastCh := ch } .user 0 cap hval]
  rw [if_pos (show 0 + ({ s with lastCh := ch } : IniSt M).idx ≥ cap from by simpa using hcap)]
  rfl

lemma strStep (cfg : Cfg M) (q c : Int) (s : IniSt M) (cap : Nat)
    (hst : s.st = .strValue) (hval : s.val = .vstr ⟨.user, 0, cap⟩) (hq : s.quote = q)
    (hvc : isValidStrChar c = true) (hcq : c ≠ q) (h35 : q = 0 → c ≠ 35)
    (hcap : s.idx < cap) :
    parse cfg c s =
      (true, { s with
               lastCh := c
               sdest := s.sdest.set s.idx (byteOf c)
               idx := s.idx + 1
               strBlank := if isblank c then
                             (if s.strBlank = 0 then s.idx else s.strBlank)
                           else 0 }) := by
  have heol : eolOf c = false := validStr_not_eol c hvc
  have hadd : addLineOf c s.lastCh = 0 := addLineOf_zero c s.lastCh heol
  have h35x : ¬ (c = 35 ∧ s.quote = 0) := by
    rintro ⟨h1, h2⟩
    rw [hq] at h2
    exact h35 h2 h1
  have hqx : ¬ (c = s.quote ∧ s.quote ≠ 0) := by
    rintro ⟨h1, -⟩
    rw [hq] at h1
    exact hcq h1
  have hcapx : ¬ (0 + s.idx ≥ cap) := by omega
  unfold parse
  rw [dispatch_at_strValue cfg c (eolOf c) { s with lastCh := c } hst]
  rw [handleStr_vstr cfg c (eolOf c) { s with lastCh := c } .user 0 cap hval]
  rw [heol, hadd]
  by_cases hbl : isblank c = true <;> by_cases hb0 : s.strBlank = 0 <;>
    simp [hcapx, h35x, hqx, hvc, hbl, hb0, writeAt, wrapLine,
      show ¬ cap ≤ s.idx from by omega]

lemma strClose (cfg : Cfg M) (hver : ∀ m g k, (cfg.mapper m true g k).1 = true)
    (q close : Int) (s : IniSt M) (cap : Nat)
    (hst : s.st = .strValue) (hval : s.val = .vstr ⟨.user, 0, cap⟩) (hq : s.quote = q)
    (hclose : (q = 0 ∧ (close < 0 ∨ close = 13 ∨ close = 10 ∨ close = 35)) ∨
              (q ≠ 0 ∧ close = q))
    (hcap : s.idx < cap) :
    (parse cfg close s).1 = true ∧
    (parse cfg close s).2.sdest =
      s.sdest.set (if q = 0 ∧ s.strBlank ≠ 0 then s.strBlank else s.idx) 0 := by
  have hcapx : ¬ (0 + s.idx ≥ cap) := by omega
  unfold parse
  rw [dispatch_at_strValue cfg close (eolOf close) { s with lastCh := close } hst]
  rw [handleStr_vstr cfg close (eolOf close) { s with lastCh := close } .user 0 cap hval]
  have hnocap : ¬ cap ≤ s.idx := by omega
  rcases hclose with ⟨hq0, hcl⟩ | ⟨hqn, hcl⟩
  · rcases hcl with hcl | hcl | hcl | hcl
    · by_cases hsb0 : s.strBlank = 0 <;>
        simp [hnocap, hq, hq0, hcl, hsb0, eolOf, show ¬ close = 35 from by omega,
          closeStr, invokeMapper, trimString, writeAt, hver, wrapLine,
          show byteOf 0 = 0 from rfl]
    · by_cases hsb0 : s.strBlank = 0 <;>
        simp [hnocap, hq, hq0, hcl, hsb0, eolOf, show ¬ close = 35 from by omega,
          closeStr, invokeMapper, trimString, writeAt, hver, wrapLine,
          show byteOf 0 = 0 from rfl]
    · by_cases hsb0 : s.strBlank = 0 <;>
        simp [hnocap, hq, hq0, hcl, hsb0, eolOf, show ¬ close = 35 from by omega,
          closeStr, invokeMapper, trimString, writeAt, hver, wrapLine,
          show byteOf 0 = 0 from rfl]
    · subst hcl
      by_cases hsb0 : s.strBlank = 0 <;>
        simp [hnocap, hq, hq0, hsb0, closeStr, invokeMapper, trimString, writeAt, hver,
          wrapLine, show byteOf 0 = 0 from rfl]
  · by_cases hsb0 : s.strBlank = 0 <;>
      simp [hnocap, hq, hqn, hcl, closeStr, invokeMapper, trimString, writeAt,
        hver, wrapLine, show byteOf 0 = 0 from rfl]

lemma strRun (cfg : Cfg M) (hver : ∀ m g k, (cfg.mapper m true g k).1 = true)
    (q close : Int)
    (hclose : (q = 0 ∧ (close < 0 ∨ close = 13 ∨ close = 10 ∨ close = 35)) ∨
              (q ≠ 0 ∧ close = q)) :
    ∀ (v : List Int) (i b : Nat) (s : IniSt M) (cap : Nat),
      s.st = .strValue → s.val = .vstr ⟨.user, 0, cap⟩ → s.quote = q →
      s.idx = i → s.strBlank = b →
      (∀ c ∈ v, isValidStrChar c = true ∧ c ≠ q ∧ (q = 0 → c ≠ 35)) →
      ((i + v.length < cap →
          (feedAll cfg (v ++ [close]) s).1 = true ∧
          (feedAll cfg (v ++ [close]) s).2.sdest =
            (writeSeq s.sdest i v).set
              (if q = 0 ∧ blankAcc b i v ≠ 0 then blankAcc b i v else i + v.length) 0) ∧
       (cap ≤ i + v.length →
          (feedAll cfg (v ++ [close]) s).1 = false ∧
          (feedAll cfg (v ++ [close]) s).2.st = .error ∧
          (feedAll cfg (v ++ [close]) s).2.sdest = writeSeq s.sdest i (v.take (cap - i)))) := by
  intro v
  induction v with
  | nil =>
    intro i b s cap hst hval hq hidx hsb _
    subst hidx
    subst hsb
    rw [List.nil_append, feedAll_cons]
    constructor
    · intro hlt
      rw [List.length_nil, Nat.add_zero] at hlt
      have hc := strClose cfg hver q close s cap hst hval hq hclose hlt
      rw [if_pos hc.1]
      refine ⟨rfl, ?_⟩
      show (parse cfg close s).2.sdest = _
      rw [hc.2]
      show s.sdest.set (if q = 0 ∧ s.strBlank ≠ 0 then s.strBlank else s.idx) 0 =
        s.sdest.set (if q = 0 ∧ s.strBlank ≠ 0 then s.strBlank else s.idx + 0) 0
      rw [Nat.add_zero]
    · intro hge
      rw [List.length_nil, Nat.add_zero] at hge
      have hf := strFull cfg close s cap hst hval hge
      rw [hf]
      refine ⟨by simp, by simp, by simp [writeSeq]⟩
  | cons c cs ih =>
    intro i b s cap hst hval hq hidx hsb hv
    obtain ⟨hvc, hcq, h35⟩ := hv c (List.mem_cons_self c cs)
    have hv2 : ∀ x ∈ cs, isValidStrChar x = true ∧ x ≠ q ∧ (q = 0 → x ≠ 35) :=
      fun x hx => hv x (List.mem_cons_of_mem c hx)
    subst hidx
    subst hsb
    rw [List.cons_append, feedAll_cons]
    by_cases hcap : cap ≤ s.idx
    · have hf := strFull cfg c s cap hst hval hcap
      rw [hf]
      constructor
      · intro hlt
        rw [List.length_cons] at hlt
        exact absurd hcap (by omega)
      · intro _
        rw [show cap - s.idx = 0 from by omega, List.take_zero]
        refine ⟨by simp, by simp, by simp [writeSeq]⟩
    · push_neg at hcap
      have hstep := strStep cfg q c s cap hst hval hq hvc hcq h35 hcap
      rw [hstep, if_pos rfl]
      have hrec := ih (s.idx + 1)
        (if isblank c then (if s.strBlank = 0 then s.idx else s.strBlank) else 0)
        { s with
          lastCh := c
          sdest := s.sdest.set s.idx (byteOf c)
          idx := s.idx + 1
          strBlank := if isblank c then
                        (if s.strBlank = 0 then s.idx else s.strBlank)
                      else 0 }
        cap hst hval hq rfl rfl hv2
      constructor
      · intro hlt
        rw [List.length_cons] at hlt
        have h1 := hrec.1 (by omega)
        refine ⟨h1.1, ?_⟩
        rw [h1.2]
        simp only [List.length_cons]
        rw [show s.idx + (cs.length + 1) = s.idx + 1 + cs.length from by omega]
        rfl
      · intro hge
        rw [List.length_cons] at hge
        have h2 := hrec.2 (by omega)
        refine ⟨h2.1, h2.2.1, ?_⟩
        rw [h2.2.2]
        rw [show cap - s.idx = (cap - (s.idx + 1)) + 1 from by omega, List.take_succ_cons]
        rfl

lemma byteOf_ne_zero (c : Int) (h1 : isValidStrChar c = true) (h2 : c < 256) :
    byteOf c ≠ 0 := by
  unfold isValidStrChar at h1
  simp only [Bool.and_eq_true, Bool.or_eq_true, decide_eq_true_eq] at h1
  unfold byteOf
  rw [Int.emod_eq_of_lt (by omega) (by omega)]
  omega

/-- C6 counterexample: with a bound string of capacity 2, the quoted value
`ab` has both its bytes written into the destination (2 = cap content
bytes, not at most cap - 1) before the closing quote drives the parser into
`PST_ERROR`. -/
theorem c6_cap_bytes_written :
    (feedAll ⟨16, constMapper (.str 2)⟩
        ([107, 61, 39, 97, 98, 39].map (fun b => ((b : Nat) : Int)) ++ [-1])
        (initState 16 [255, 255] 0 0)).1 = false ∧
    (feedAll ⟨16, constMapper (.str 2)⟩
        ([107, 61, 39, 97, 98, 39].map (fun b => ((b : Nat) : Int)) ++ [-1])
        (initState 16 [255, 255] 0 0)).2.st = .error ∧
    (feedAll ⟨16, constMapper (.str 2)⟩
        ([107, 61, 39, 97, 98, 39].map (fun b => ((b : Nat) : Int)) ++ [-1])
        (initState 16 [255, 255] 0 0)).2.sdest = [97, 98] := by
  refine ⟨by decide, by decide, by decide⟩

/-- C6 as amended: for a string binding of capacity `cap`, feeding the
value bytes `v` and the closing delimiter from the start of the value:
if `v` fits (`v.length < cap`) the record closes successfully, the
destination read as a C string holds exactly the bytes between the
delimiters with trailing blanks removed if and only if the value was
unquoted, and a null terminator lies within the `cap` bytes of the
destination; if `v` does not fit (`v.length ≥ cap`) the parser enters
`PST_ERROR` — after writing up to `cap` (not `cap - 1`) content bytes; in
every case no byte at offset `≥ cap` is ever written. -/
theorem c6_string_binding {M : Type} (cfg : Cfg M) (s : IniSt M) (cap : Nat) (q close : Int)
    (v : List Int)
    (hver : ∀ m g k, (cfg.mapper m true g k).1 = true)
    (hst : s.st = .strValue) (hval : s.val = .vstr ⟨.user, 0, cap⟩) (hq : s.quote = q)
    (hidx : s.idx = 0) (hsb : s.strBlank = 0) (hlen : s.sdest.length = cap)
    (hv : ∀ c ∈ v, isValidStrChar c = true ∧ c < 256 ∧ c ≠ q ∧ (q = 0 → c ≠ 35))
    (hhead : q = 0 → ∀ c0, v.head? = some c0 → isblank c0 = false)
    (hclose : (q = 0 ∧ (close < 0 ∨ close = 13 ∨ close = 10 ∨ close = 35)) ∨
              (q ≠ 0 ∧ close = q)) :
    (v.length < cap →
       (feedAll cfg (v ++ [close]) s).1 = true ∧
       cstr (feedAll cfg (v ++ [close]) s).2.sdest = (trimVal q v).map byteOf ∧
       (0 : Nat) ∈ (feedAll cfg (v ++ [close]) s).2.sdest) ∧
    (cap ≤ v.length →
       (feedAll cfg (v ++ [close]) s).1 = false ∧
       (feedAll cfg (v ++ [close]) s).2.st = .error) ∧
    (∀ jj, cap ≤ jj →
       (feedAll cfg (v ++ [close]) s).2.sdest.get? jj = s.sdest.get? jj) := by
  have hrun := strRun cfg hver q close hclose v 0 0 s cap hst hval hq hidx hsb
    (fun c hc => ⟨(hv c hc).1, (hv c hc).2.2.1, (hv c hc).2.2.2⟩)
  have hnz : ∀ c ∈ v, byteOf c ≠ 0 :=
    fun c hc => byteOf_ne_zero c (hv c hc).1 (hv c hc).2.1
  have hTle : (if q = 0 ∧ blankAcc 0 0 v ≠ 0 then blankAcc 0 0 v else 0 + v.length) ≤
      v.length := by
    split
    · rename_i hcon
      rw [(blankAcc_tb v (hhead hcon.1)).2 hcon.2]
      exact dropTrailing_length_le v
    · omega
  refine ⟨?_, ?_, ?_⟩
  · intro hlt
    have h1 := hrun.1 (by omega)
    refine ⟨h1.1, ?_, ?_⟩
    · rw [h1.2]
      by_cases hq0 : q = 0
      · by_cases hb : blankAcc 0 0 v = 0
        · rw [if_neg (by simp [hb])]
          rw [cstr_write_set v s.sdest (0 + v.length) (by omega) (by omega) hnz]
          simp [trimVal, hq0, (blankAcc_tb v (hhead hq0)).1 hb]
        · rw [if_pos ⟨hq0, hb⟩]
          have hT := (blankAcc_tb v (hhead hq0)).2 hb
          rw [cstr_write_set v s.sdest (blankAcc 0 0 v)
            (by rw [hT]; exact dropTrailing_length_le v) (by omega) hnz]
          rw [hT, ← dropTrailing_take v]
          simp [trimVal, hq0]
      · rw [if_neg (fun hcon => hq0 hcon.1)]
        rw [cstr_write_set v s.sdest (0 + v.length) (by omega) (by omega) hnz]
        simp [trimVal, hq0]
    · rw [h1.2]
      apply mem_set_zero
      rw [writeSeq_length, hlen]
      omega
  · intro hge
    have h2 := hrun.2 (by omega)
    exact ⟨h2.1, h2.2.1⟩
  · intro jj hjj
    by_cases hcase : v.length < cap
    · have h1 := hrun.1 (by omega)
      rw [h1.2]
      rw [set_get_ne _ _ jj _ (by omega)]
      exact writeSeq_get_ge v s.sdest 0 jj (by omega)
    · have h2 := hrun.2 (by omega)
      rw [h2.2.2]
      apply writeSeq_get_ge
      have htl : (List.take (cap - 0) v).length ≤ cap := by
        rw [List.length_take]
        omega
      omega

/-- Witness for the amended C6: the unquoted value `ab ` (with one trailing
blank) under a capacity-5 binding closes at end of input with the trimmed
content `ab` and a null terminator inside the buffer. -/
theorem c6_string_binding_witness :
    (feedAll ⟨16, constMapper .keep⟩ ([97, 98, 32] ++ [-1])
        { initState 16 [255, 255, 255, 255, 255] 0 0 with
          st := .strValue
          val := .vstr ⟨.user, 0, 5⟩ }).1 = true ∧
    cstr (feedAll ⟨16, constMapper .keep⟩ ([97, 98, 32] ++ [-1])
        { initState 16 [255, 255, 255, 255, 255] 0 0 with
          st := .strValue
          val := .vstr ⟨.user, 0, 5⟩ }).2.sdest = (trimVal 0 [97, 98, 32]).map byteOf ∧
    (0 : Nat) ∈ (feedAll ⟨16, constMapper .keep⟩ ([97, 98, 32] ++ [-1])
        { initState 16 [255, 255, 255, 255, 255] 0 0 with
          st := .strValue
          val := .vstr ⟨.user, 0, 5⟩ }).2.sdest :=
  (c6_string_binding ⟨16, constMapper .keep⟩
    { initState 16 [255, 255, 255, 255, 255] 0 0 with
      st := .strValue
      val := .vstr ⟨.user, 0, 5⟩ }
    5 0 (-1) [97, 98, 32]
    (fun _ _ _ => rfl) rfl rfl rfl rfl rfl rfl
    (by decide) (by decide) (Or.inl ⟨rfl, by norm_num⟩)).1 (by norm_num)

end IniP
